import Mathlib

/-!
# File identity and change classification in `dive/filetree/file_info.go`

A shallow embedding of `FileInfo`, its two constructors
(`NewFileInfoFromTarHeader`, `NewFileInfo`), `Copy`, `Compare` and the
two-stage fingerprint `getHashFromReader`, together with the parts of the
libraries they call (`github.com/cespare/xxhash`, `archive/tar`, `io.Reader`).

Conventions
* Go `uint64`, `uint32` and `byte` values are natural numbers, reduced
  `% 2^64` wherever the Go arithmetic wraps; `int`, `int64` are integers.
* A Go `[]byte` is a `List UInt8`; a Go `string` is a `String`, turned into
  bytes by `bytesOf` (its UTF-8 encoding).
* A function that may panic returns `Except Panic _`.
* A pointer `*FileInfo` is an address into an explicit `Heap`.
-/

namespace Dive

/-! ## `github.com/cespare/xxhash`: the streaming 64-bit digest -/

namespace xxhash

def prime1 : Nat := 11400714785074694791
def prime2 : Nat := 14029467366897019727
def prime3 : Nat := 1609587929392839161
def prime4 : Nat := 9650029242287828579
def prime5 : Nat := 2870177450012600261

/-- Rotate the 64-bit word `x` left by `r` bits (`bits.RotateLeft64`). -/
def rol (r x : Nat) : Nat :=
  ((x <<< r) ||| (x >>> (64 - r))) % 2 ^ 64

/-- The Go function `round`: `acc += input * prime2; acc = rol31(acc); acc *= prime1`. -/
def round (acc input : Nat) : Nat :=
  let acc := (acc + input * prime2) % 2 ^ 64
  let acc := rol 31 acc
  (acc * prime1) % 2 ^ 64

/-- The Go function `mergeRound`. -/
def mergeRound (acc val : Nat) : Nat :=
  let val := round 0 val
  let acc := acc ^^^ val
  (acc * prime1 + prime4) % 2 ^ 64

/-- Little-endian value of a byte slice. -/
def leBytes : List UInt8 → Nat
  | [] => 0
  | b :: bs => b.toNat + 256 * leBytes bs

/-- The Go helper `u64`: `binary.LittleEndian.Uint64(b)`, the first eight bytes. -/
def u64 (b : List UInt8) : Nat := leBytes (b.take 8)

/-- The Go helper `u32`: `binary.LittleEndian.Uint32(b)`, the first four bytes. -/
def u32 (b : List UInt8) : Nat := leBytes (b.take 4)

/-- The four accumulators `v1, v2, v3, v4` of the Go struct `xxh`. -/
structure Lanes where
  v1 : Nat
  v2 : Nat
  v3 : Nat
  v4 : Nat
  deriving DecidableEq, Repr

/-- The Go struct `xxh`.  The field `mem` holds the buffered bytes `mem[:n]` of
the Go struct, so that the Go field `n` is `mem.length`; the bytes of the Go array
beyond `n` are never read.  `total` counts the bytes written; `Sum64` reduces it to
64 bits where it enters the digest. -/
structure Digest where
  v : Lanes
  total : Nat
  mem : List UInt8
  deriving DecidableEq, Repr

/-- The Go function `New` (`Reset` on a fresh digest). -/
def New : Digest :=
  { v := { v1 := (prime1 + prime2) % 2 ^ 64
           v2 := prime2
           v3 := 0
           v4 := (2 ^ 64 - prime1) % 2 ^ 64 }
    total := 0
    mem := [] }

/-- One 32-byte block through the four accumulators:
`v1 = round(v1, u64(b[0:8]))`, ..., `v4 = round(v4, u64(b[24:32]))`. -/
def roundBlock (v : Lanes) (b : List UInt8) : Lanes :=
  { v1 := round v.v1 (u64 b)
    v2 := round v.v2 (u64 (b.drop 8))
    v3 := round v.v3 (u64 (b.drop 16))
    v4 := round v.v4 (u64 (b.drop 24)) }

/-- The loop of the Go function `writeBlocks`: `for len(b) >= 32 { ...; b = b[32:] }`.
The first argument bounds the number of iterations. -/
def writeBlocksLoop : Nat → Lanes → List UInt8 → Lanes × List UInt8
  | 0, v, b => (v, b)
  | fuel + 1, v, b =>
    if 32 ≤ b.length then writeBlocksLoop fuel (roundBlock v b) (b.drop 32)
    else (v, b)

/-- The Go function `writeBlocks`: consumes the full blocks of `b`, returns the rest.
The loop runs at most `len(b)` times. -/
def writeBlocks (v : Lanes) (b : List UInt8) : Lanes × List UInt8 :=
  writeBlocksLoop b.length v b

/-- The Go method `(*xxh).Write`.  It never returns an error. -/
def Digest.Write (x : Digest) (b : List UInt8) : Digest :=
  let total := x.total + b.length
  if x.mem.length + b.length < 32 then
    -- This new data doesn't even fill the current block.
    { v := x.v, total := total, mem := x.mem ++ b }
  else
    let (v, b) :=
      if 0 < x.mem.length then
        -- Finish off the partial block.
        (roundBlock x.v (x.mem ++ b.take (32 - x.mem.length)), b.drop (32 - x.mem.length))
      else (x.v, b)
    let (v, b) :=
      -- One or more full blocks left.
      if 32 ≤ b.length then writeBlocks v b else (v, b)
    -- Store any remaining partial block.
    { v := v, total := total, mem := b }

/-- First tail loop of `Sum64`: `for ; i+8 <= end; i += 8`. -/
def tail8 (h : Nat) : List UInt8 → Nat × List UInt8
  | b0 :: b1 :: b2 :: b3 :: b4 :: b5 :: b6 :: b7 :: rest =>
    let k1 := round 0 (u64 [b0, b1, b2, b3, b4, b5, b6, b7])
    let h := h ^^^ k1
    tail8 ((rol 27 h * prime1 + prime4) % 2 ^ 64) rest
  | rest => (h, rest)

/-- The step `if i+4 <= end` of `Sum64`. -/
def tail4 (h : Nat) : List UInt8 → Nat × List UInt8
  | b0 :: b1 :: b2 :: b3 :: rest =>
    let h := h ^^^ ((u32 [b0, b1, b2, b3] * prime1) % 2 ^ 64)
    ((rol 23 h * prime2 + prime3) % 2 ^ 64, rest)
  | rest => (h, rest)

/-- Last tail loop of `Sum64`: `for i < end`. -/
def tail1 (h : Nat) : List UInt8 → Nat
  | [] => h
  | b :: rest =>
    let h := h ^^^ ((b.toNat * prime5) % 2 ^ 64)
    tail1 ((rol 11 h * prime1) % 2 ^ 64) rest

/-- The final avalanche of `Sum64`. -/
def avalanche (h : Nat) : Nat :=
  let h := h ^^^ (h >>> 33)
  let h := (h * prime2) % 2 ^ 64
  let h := h ^^^ (h >>> 29)
  let h := (h * prime3) % 2 ^ 64
  h ^^^ (h >>> 32)

/-- The Go method `(*xxh).Sum64`. -/
def Digest.Sum64 (x : Digest) : Nat :=
  let h :=
    if 32 ≤ x.total then
      let h := (rol 1 x.v.v1 + rol 7 x.v.v2 + rol 12 x.v.v3 + rol 18 x.v.v4) % 2 ^ 64
      let h := mergeRound h x.v.v1
      let h := mergeRound h x.v.v2
      let h := mergeRound h x.v.v3
      mergeRound h x.v.v4
    else (x.v.v3 + prime5) % 2 ^ 64
  let h := (h + x.total) % 2 ^ 64
  let (h, rest) := tail8 h x.mem
  let (h, rest) := tail4 h rest
  avalanche (tail1 h rest)

/-- The digest of a whole byte string: one `Write` on a fresh digest, then `Sum64`
(the Go function `xxhash.Sum64`). -/
def Sum64 (b : List UInt8) : Nat := (New.Write b).Sum64

end xxhash

/-! ## `io.Reader`, errors and panics -/

/-- A Go `error` value as returned by `Read`: `io.EOF` or any other error. -/
inductive GoError where
  | EOF
  | other (msg : String)
  deriving DecidableEq, Repr

/-- The value a `logrus.Panic` call aborts with. -/
inductive Panic where
  /-- `logrus.Panic(err)` in `getHashFromReader`. -/
  | hashing (err : GoError)
  /-- `logrus.Panic("unable to read link:", realPath, err)` in `NewFileInfo`. -/
  | readLink (realPath : String) (err : GoError)
  /-- `logrus.Panic("unable to read file:", realPath)` in `NewFileInfo`. -/
  | openFile (realPath : String)
  deriving DecidableEq, Repr

/-- What one call `n, err := reader.Read(buf)` yields: the bytes `buf[:n]` and `err`. -/
structure ReadResult where
  data : List UInt8
  err : Option GoError
  deriving DecidableEq, Repr

/-- The length of the buffer `buf := make([]byte, 1024)` handed to `Read`. -/
def bufSize : Nat := 1024

/-- An `io.Reader`: the results its coming `Read` calls will yield, and the number of
`Read` calls made on it so far.  Once `pending` is used up the reader is at the end of
its stream: every further `Read` yields `0, io.EOF`. -/
structure Reader where
  pending : List ReadResult
  calls : Nat
  deriving DecidableEq, Repr

/-- One call of `reader.Read(buf)`. -/
def Reader.Read (r : Reader) : ReadResult × Reader :=
  match r.pending with
  | [] => ({ data := [], err := some GoError.EOF }, { pending := [], calls := r.calls + 1 })
  | res :: rest => (res, { pending := rest, calls := r.calls + 1 })

/-- A reader that has not been read yet and delivers `chunks` one per `Read`, without
error, and then reports the end of the stream (`0, io.EOF`). -/
def Reader.ofChunks (chunks : List (List UInt8)) : Reader :=
  { pending := chunks.map (fun c => { data := c, err := none })
      ++ [{ data := [], err := some GoError.EOF }]
    calls := 0 }

/-! ## `getHashFromReader` -/

/-- The bytes `[]byte(s)` of a Go string. -/
def bytesOf (s : String) : List UInt8 := s.toUTF8.data.toList

/-- The Go call `strconv.FormatUint(n, 10)`: the base-10 text of `n`. -/
def FormatUint (n : Nat) : String := toString n

/-- The Go struct `FileNode`, as far as `getHashFromReader` fills it in. -/
structure FileNode where
  path : String
  deriving DecidableEq, Repr

/-- The read loop of `getHashFromReader`, by recursion on the reads the reader has
pending (`calls` counts the `Read` calls):
```
for {
    n, err := reader.Read(buf)
    if err != nil && err != io.EOF { logrus.Panic(err) }
    if n == 0 { break }
    _, err = h.Write(buf[:n])
}
```
`hashLoop_eq` states it through `Reader.Read`. -/
def hashLoop : List ReadResult → Nat → xxhash.Digest → Except Panic (xxhash.Digest × Reader)
  | [], calls, h => .ok (h, { pending := [], calls := calls + 1 })
  | res :: rest, calls, h =>
    match res.err with
    | some (GoError.other msg) => .error (Panic.hashing (GoError.other msg))
    | _ =>
      if res.data.length = 0 then .ok (h, { pending := rest, calls := calls + 1 })
      else hashLoop rest (calls + 1) (h.Write res.data)

/-- The Go function `getHashFromReader`.  `Path` is the method `(*FileNode).Path`;
the result carries the reader in the state the function leaves it in. -/
def getHashFromReader (Path : FileNode → String) (reader : Reader) (path : String) :
    Except Panic (Nat × Reader) :=
  let h := xxhash.New
  -- Get absolute path
  let tmpFileNode : FileNode := { path := path }
  let absPath := Path tmpFileNode
  match hashLoop reader.pending reader.calls h with
  | .error p => .error p
  | .ok (h, reader) =>
    let contentHash := h.Sum64
    let contentHashStr := FormatUint contentHash
    let finalHash := xxhash.New
    let finalHash := finalHash.Write (bytesOf contentHashStr)
    -- Add absolute path as hash parameter
    let finalHash := finalHash.Write (bytesOf absPath)
    .ok (finalHash.Sum64, reader)

/-! ## `FileInfo`, `Compare`, `Copy` -/

/-- The Go struct `FileInfo`. -/
structure FileInfo where
  Path : String
  TypeFlag : Nat
  Linkname : String
  Hash : Nat
  Size : Int
  Mode : Nat
  Uid : Int
  Gid : Int
  IsDir : Bool
  deriving DecidableEq, Repr

/-- Modelled from the spec: the type `DiffType` is declared outside the files at hand;
the spec gives the verdicts of the classifier as `{Unmodified, Modified}`. -/
inductive DiffType where
  | Unmodified
  | Modified
  deriving DecidableEq, Repr

/-- The Go method `(*FileInfo).Compare`. -/
def FileInfo.Compare (data other : FileInfo) : DiffType :=
  if data.TypeFlag = other.TypeFlag then
    if data.Hash = other.Hash ∧
        data.Mode = other.Mode ∧
        data.Uid = other.Uid ∧
        data.Gid = other.Gid then
      DiffType.Unmodified
    else DiffType.Modified
  else DiffType.Modified

/-- The store of `FileInfo` records that pointers refer to; an address is an index. -/
structure Heap where
  cells : List FileInfo
  deriving DecidableEq, Repr

/-- A `*FileInfo`: `none` is `nil`. -/
abbrev Ptr := Option Nat

/-- The record at an address. -/
def Heap.load (h : Heap) (a : Nat) : Option FileInfo := h.cells[a]?

/-- Assignment through a pointer: `*a = v`, or any assignment to fields of `*a`. -/
def Heap.store (h : Heap) (a : Nat) (v : FileInfo) : Heap := { cells := h.cells.set a v }

/-- The allocation `&FileInfo{...}`: a fresh address holding `v`. -/
def Heap.alloc (h : Heap) (v : FileInfo) : Nat × Heap :=
  (h.cells.length, { cells := h.cells ++ [v] })

/-- The Go method `(*FileInfo).Copy`.  The result is `none` on a fault (a pointer that
is neither `nil` nor allocated, which Go excludes). -/
def Copy (h : Heap) (data : Ptr) : Option (Ptr × Heap) :=
  match data with
  | none => some (none, h)
  | some a =>
    match h.load a with
    | none => none
    | some d =>
      let (a', h') := h.alloc
        { Path := d.Path
          TypeFlag := d.TypeFlag
          Linkname := d.Linkname
          Hash := d.Hash
          Size := d.Size
          Mode := d.Mode
          Uid := d.Uid
          Gid := d.Gid
          IsDir := d.IsDir }
      some (some a', h')

/-! ## `archive/tar` headers and `os.FileInfo` -/

namespace tar

def TypeReg : Nat := 48      -- '0'
def TypeLink : Nat := 49     -- '1'
def TypeSymlink : Nat := 50  -- '2'
def TypeChar : Nat := 51     -- '3'
def TypeBlock : Nat := 52    -- '4'
def TypeDir : Nat := 53      -- '5'
def TypeFifo : Nat := 54     -- '6'

def c_ISUID : Nat := 0o4000
def c_ISGID : Nat := 0o2000
def c_ISVTX : Nat := 0o1000
def c_ISDIR : Nat := 0o40000
def c_ISFIFO : Nat := 0o10000
def c_ISREG : Nat := 0o100000
def c_ISLNK : Nat := 0o120000
def c_ISBLK : Nat := 0o60000
def c_ISCHR : Nat := 0o20000
def c_ISSOCK : Nat := 0o140000

/-- The fields of the Go struct `tar.Header` that `NewFileInfoFromTarHeader` reads. -/
structure Header where
  Typeflag : Nat
  Linkname : String
  Size : Int
  Mode : Int
  Uid : Int
  Gid : Int
  deriving DecidableEq, Repr

end tar

namespace os

def ModeDir : Nat := 2 ^ 31
def ModeSymlink : Nat := 2 ^ 27
def ModeDevice : Nat := 2 ^ 26
def ModeNamedPipe : Nat := 2 ^ 25
def ModeSocket : Nat := 2 ^ 24
def ModeSetuid : Nat := 2 ^ 23
def ModeSetgid : Nat := 2 ^ 22
def ModeCharDevice : Nat := 2 ^ 21
def ModeSticky : Nat := 2 ^ 20
def ModePerm : Nat := 0o777

/-- The Go method `FileMode.IsDir`: `m&ModeDir != 0`. -/
def FileMode_IsDir (m : Nat) : Bool := decide (m &&& ModeDir ≠ 0)

/-- What the three methods of an `os.FileInfo` value used by `NewFileInfo` return. -/
structure FileInfo where
  Mode : Nat
  IsDir : Bool
  Size : Int
  deriving DecidableEq, Repr

end os

namespace tar

/-- The bit pattern of an `int64` as an unsigned 64-bit value. -/
def bits64 (i : Int) : Nat := (i % 2 ^ 64).toNat

/-- The Go method `headerFileInfo.Size`. -/
def Header.FileInfo_Size (h : Header) : Int := h.Size

/-- The Go method `headerFileInfo.Mode`. -/
def Header.FileInfo_Mode (h : Header) : Nat :=
  let hMode := bits64 h.Mode
  let fileMode := hMode % 2 ^ 32   -- fs.FileMode(fi.h.Mode)
  -- Set file permission bits.
  let mode := fileMode &&& os.ModePerm
  -- Set setuid, setgid and sticky bits.
  let mode := if hMode &&& c_ISUID ≠ 0 then mode ||| os.ModeSetuid else mode
  let mode := if hMode &&& c_ISGID ≠ 0 then mode ||| os.ModeSetgid else mode
  let mode := if hMode &&& c_ISVTX ≠ 0 then mode ||| os.ModeSticky else mode
  -- Set file mode bits; clear perm, setuid, setgid, and sticky bits.
  let m := fileMode &&& (0xFFFFFFFF ^^^ 0o7777)
  let mode :=
    if m = c_ISDIR then mode ||| os.ModeDir
    else if m = c_ISFIFO then mode ||| os.ModeNamedPipe
    else if m = c_ISLNK then mode ||| os.ModeSymlink
    else if m = c_ISBLK then mode ||| os.ModeDevice
    else if m = c_ISCHR then mode ||| os.ModeDevice ||| os.ModeCharDevice
    else if m = c_ISSOCK then mode ||| os.ModeSocket
    else mode
  if h.Typeflag = TypeSymlink then mode ||| os.ModeSymlink
  else if h.Typeflag = TypeChar then mode ||| os.ModeDevice ||| os.ModeCharDevice
  else if h.Typeflag = TypeBlock then mode ||| os.ModeDevice
  else if h.Typeflag = TypeDir then mode ||| os.ModeDir
  else if h.Typeflag = TypeFifo then mode ||| os.ModeNamedPipe
  else mode

/-- The Go method `headerFileInfo.IsDir`: `fi.Mode().IsDir()`. -/
def Header.FileInfo_IsDir (h : Header) : Bool := os.FileMode_IsDir h.FileInfo_Mode

end tar

/-! ## The two constructors -/

/-- The Go function `NewFileInfoFromTarHeader`.  `reader` is the content stream of the
entry; the result carries it in the state the function leaves it in. -/
def NewFileInfoFromTarHeader (Path : FileNode → String) (reader : Reader)
    (header : tar.Header) (path : String) : Except Panic (FileInfo × Reader) :=
  let hashed : Except Panic (Nat × Reader) :=
    if header.Typeflag ≠ tar.TypeDir then
      getHashFromReader Path reader path
    else .ok (0, reader)
  match hashed with
  | .error p => .error p
  | .ok (hash, reader) =>
    .ok ({ Path := path
           TypeFlag := header.Typeflag
           Linkname := header.Linkname
           Hash := hash
           Size := header.FileInfo_Size
           Mode := header.FileInfo_Mode
           Uid := header.Uid
           Gid := header.Gid
           IsDir := header.FileInfo_IsDir }, reader)

/-- The file system as `NewFileInfo` sees it: `os.Readlink` and `os.Open`. -/
structure FileSystem where
  Readlink : String → Except GoError String
  Open : String → Except GoError Reader

/-- The first part of `NewFileInfo`: `fileType`, `linkName` and `size`. -/
def classify (fs : FileSystem) (realPath : String) (info : os.FileInfo) :
    Except Panic (Nat × String × Int) :=
  if info.Mode &&& os.ModeSymlink ≠ 0 then
    match fs.Readlink realPath with
    | .error err => .error (Panic.readLink realPath err)
    | .ok linkName => .ok (tar.TypeSymlink, linkName, 0)
  else if info.IsDir then .ok (tar.TypeDir, "", 0)
  else .ok (tar.TypeReg, "", info.Size)

/-- The Go function `NewFileInfo`.  Beside the record, the result carries the file that
was opened for hashing, in the state the function leaves it in, or `none` when no file
was opened. -/
def NewFileInfo (Path : FileNode → String) (fs : FileSystem) (realPath path : String)
    (info : os.FileInfo) : Except Panic (FileInfo × Option Reader) :=
  match classify fs realPath info with
  | .error p => .error p
  | .ok (fileType, linkName, size) =>
    let hashed : Except Panic (Nat × Option Reader) :=
      if fileType ≠ tar.TypeDir then
        match fs.Open realPath with
        | .error _ => .error (Panic.openFile realPath)
        | .ok file =>
          match getHashFromReader Path file path with
          | .error p => .error p
          | .ok (hash, file) => .ok (hash, some file)
      else .ok (0, none)
    match hashed with
    | .error p => .error p
    | .ok (hash, file) =>
      .ok ({ Path := path
             TypeFlag := fileType
             Linkname := linkName
             Hash := hash
             Size := size
             Mode := info.Mode
             Uid := -1
             Gid := -1
             IsDir := info.IsDir }, file)

deriving instance DecidableEq for Except

/-! ## The fingerprint in the words of the specification -/

/-- The fingerprint of content `c` under the logical path `p` as the specification
words it: the digest of the base-10 text of the digest of `c`, followed by the absolute
path of `p`. -/
def specFingerprint (Path : FileNode → String) (c : List UInt8) (p : String) : Nat :=
  xxhash.Sum64 (bytesOf (FormatUint (xxhash.Sum64 c)) ++ bytesOf (Path { path := p }))

/-- The reads `chunks` deliver the content `c`: each is non-empty and fits the buffer,
and together they are `c`. -/
def Delivers (chunks : List (List UInt8)) (c : List UInt8) : Prop :=
  (∀ x ∈ chunks, x ≠ [] ∧ x.length ≤ bufSize) ∧ chunks.flatten = c

/-- A read that does not make `getHashFromReader` stop: at least one byte, and no
error other than `io.EOF`. -/
def ReadResult.Continues (r : ReadResult) : Prop :=
  r.data ≠ [] ∧ ∀ msg, r.err ≠ some (GoError.other msg)

/-! ## Concrete inputs -/

/-- A `Path` method that returns the path stored in the node. -/
def storedPath : FileNode → String := fun n => n.path

/-- The content stream of an entry without content: the first `Read` reports the end. -/
def emptyReader : Reader := Reader.ofChunks []

/-- A reader over the content "hello", delivered in one read. -/
def helloReader : Reader := Reader.ofChunks [bytesOf "hello"]

/-- The header of a directory entry, mode `0755`, owned by root. -/
def dirHeader : tar.Header :=
  { Typeflag := tar.TypeDir, Linkname := "", Size := 0, Mode := 0o755, Uid := 0, Gid := 0 }

/-- The header of a directory entry whose size field is 5. -/
def sizedDirHeader : tar.Header :=
  { Typeflag := tar.TypeDir, Linkname := "", Size := 5, Mode := 0o755, Uid := 0, Gid := 0 }

/-- A file system with the regular file `/real/b.txt` (content "hello"), the symbolic
link `/real/link` to `b.txt`, and nothing else that can be opened. -/
def exampleFS : FileSystem :=
  { Readlink := fun p =>
      if p = "/real/link" then .ok "b.txt" else .error (GoError.other "invalid argument")
    Open := fun p =>
      if p = "/real/b.txt" ∨ p = "/real/link" then .ok helloReader
      else .error (GoError.other "no such file or directory") }

/-- The stat entry of a directory. -/
def dirStat : os.FileInfo := { Mode := os.ModeDir ||| 0o755, IsDir := true, Size := 4096 }

/-- The stat entry of the regular file `/real/b.txt`. -/
def regStat : os.FileInfo := { Mode := 0o644, IsDir := false, Size := 5 }

/-- The stat entry of the symbolic link `/real/link`. -/
def linkStat : os.FileInfo := { Mode := os.ModeSymlink ||| 0o777, IsDir := false, Size := 5 }

/-- The record `NewFileInfoFromTarHeader` builds from `dirHeader` under `/a`. -/
def dirRecord : FileInfo :=
  { Path := "/a", TypeFlag := tar.TypeDir, Linkname := "", Hash := 0, Size := 0,
    Mode := os.ModeDir ||| 0o755, Uid := 0, Gid := 0, IsDir := true }

/-- The record `NewFileInfo` builds from `dirStat` under `/a`. -/
def dirStatRecord : FileInfo :=
  { Path := "/a", TypeFlag := tar.TypeDir, Linkname := "", Hash := 0, Size := 0,
    Mode := os.ModeDir ||| 0o755, Uid := -1, Gid := -1, IsDir := true }

/-- A heap with two records. -/
def exampleHeap : Heap := { cells := [dirRecord, dirStatRecord] }

/-- A reader that delivers "he", then returns zero bytes without an error, and would
return the error `unexpected EOF` on the read after that. -/
def stalledReader : Reader :=
  { pending :=
      [{ data := bytesOf "he", err := none },
       { data := [], err := none },
       { data := [], err := some (GoError.other "unexpected EOF") }]
    calls := 0 }

/-- A reader that delivers "he" and then fails with `unexpected EOF`. -/
def failingReader : Reader :=
  { pending :=
      [{ data := bytesOf "he", err := none },
       { data := [], err := some (GoError.other "unexpected EOF") }]
    calls := 0 }

/-- The header of the regular file `/a/b.txt`: mode `0644`, uid 0, gid 0. -/
def regHeader : tar.Header :=
  { Typeflag := tar.TypeReg, Linkname := "", Size := 5, Mode := 0o644, Uid := 0, Gid := 0 }

/-- The record of `/a/b.txt` with content "hello" under `regHeader`. -/
def helloRecord : FileInfo :=
  { Path := "/a/b.txt", TypeFlag := tar.TypeReg, Linkname := "",
    Hash := specFingerprint storedPath (bytesOf "hello") "/a/b.txt", Size := 5,
    Mode := 0o644, Uid := 0, Gid := 0, IsDir := false }

/-- The header of a hard link to `a/b.txt`. -/
def hardlinkHeader : tar.Header :=
  { Typeflag := tar.TypeLink, Linkname := "a/b.txt", Size := 0, Mode := 0o644, Uid := 0,
    Gid := 0 }

/-- The header of a regular file whose mode field carries the Unix directory type bits. -/
def dirModeHeader : tar.Header :=
  { Typeflag := tar.TypeReg, Linkname := "", Size := 0, Mode := 0o40755, Uid := 0, Gid := 0 }

/-- The header of an empty regular file. -/
def emptyFileHeader : tar.Header :=
  { Typeflag := tar.TypeReg, Linkname := "", Size := 0, Mode := 0o644, Uid := 0, Gid := 0 }

/-- The header of a symbolic link to `b.txt`. -/
def linkHeaderA : tar.Header :=
  { Typeflag := tar.TypeSymlink, Linkname := "b.txt", Size := 0, Mode := 0o777, Uid := 0,
    Gid := 0 }

/-- The header of the same symbolic link, retargeted to `c.txt`. -/
def linkHeaderB : tar.Header :=
  { Typeflag := tar.TypeSymlink, Linkname := "c.txt", Size := 0, Mode := 0o777, Uid := 0,
    Gid := 0 }

/-- A reader over the content "hello" that delivers "he", then returns zero bytes
without an error, then would deliver "llo" and the end of the stream. -/
def truncatingReader : Reader :=
  { pending :=
      [{ data := bytesOf "he", err := none },
       { data := [], err := none },
       { data := bytesOf "llo", err := none },
       { data := [], err := some GoError.EOF }]
    calls := 0 }

/-- The reader holds the content `c` and delivers all of it: its pending reads are data
reads followed by the end of the stream.  Each data read delivers at least one byte that
fits the buffer, with no error or together with `io.EOF` (as a `*tar.Reader` returns the
last bytes of an entry); together the data reads are `c`.  The end of the stream is either
nothing pending, so that the next `Read` yields `0, io.EOF`, or a pending read of zero
bytes with `io.EOF`. -/
def Reader.HoldsContent (r : Reader) (c : List UInt8) : Prop :=
  ∃ reads tail : List ReadResult,
    r.pending = reads ++ tail ∧
    (∀ x ∈ reads, x.data ≠ [] ∧ x.data.length ≤ bufSize ∧
      (x.err = none ∨ x.err = some GoError.EOF)) ∧
    (reads.map (fun x => x.data)).flatten = c ∧
    (tail = [] ∨ ∃ post, tail = { data := [], err := some GoError.EOF } :: post)

/-- The content stream of a tar entry with content "hello": one read returns the five
bytes together with `io.EOF`. -/
def tarHelloReader : Reader :=
  { pending := [{ data := bytesOf "hello", err := some GoError.EOF }], calls := 0 }

/-- The same content read through a three-byte buffer window: "hel" without error, then
"lo" together with `io.EOF`. -/
def tarHelloSplitReader : Reader :=
  { pending := [{ data := bytesOf "hel", err := none },
                { data := bytesOf "lo", err := some GoError.EOF }], calls := 0 }

/-- The content stream of a tar entry with content "hello!": the six bytes together with
`io.EOF`. -/
def tarHelloBangReader : Reader :=
  { pending := [{ data := bytesOf "hello!", err := some GoError.EOF }], calls := 0 }

/-- The content stream of a tar entry without content, before any read. -/
def tarEmptyReader : Reader := { pending := [], calls := 0 }


/-! ## The digest does not depend on how the input is cut into writes -/

namespace xxhash

theorem writeBlocksLoop_short (fuel : Nat) (v : Lanes) (b : List UInt8)
    (hb : b.length < 32) : writeBlocksLoop fuel v b = (v, b) := by
  cases fuel with
  | zero => rfl
  | succ n => simp [writeBlocksLoop, Nat.not_le.mpr hb]

theorem writeBlocksLoop_fuel (fuel : Nat) :
    ∀ (fuel2 : Nat) (v : Lanes) (b : List UInt8),
      b.length < 32 * (fuel + 1) → b.length < 32 * (fuel2 + 1) →
      writeBlocksLoop fuel v b = writeBlocksLoop fuel2 v b := by
  induction fuel with
  | zero =>
    intro fuel2 v b h1 _
    rw [writeBlocksLoop_short 0 v b (by omega), writeBlocksLoop_short fuel2 v b (by omega)]
  | succ n ih =>
    intro fuel2 v b h1 h2
    by_cases hb : 32 ≤ b.length
    · cases fuel2 with
      | zero => omega
      | succ m =>
        simp only [writeBlocksLoop, hb, if_true]
        apply ih
        · simp only [List.length_drop]; omega
        · simp only [List.length_drop]; omega
    · rw [writeBlocksLoop_short _ v b (by omega), writeBlocksLoop_short _ v b (by omega)]

theorem writeBlocks_short (v : Lanes) (b : List UInt8) (hb : b.length < 32) :
    writeBlocks v b = (v, b) :=
  writeBlocksLoop_short _ v b hb

theorem writeBlocks_step (v : Lanes) (b : List UInt8) (hb : 32 ≤ b.length) :
    writeBlocks v b = writeBlocks (roundBlock v b) (b.drop 32) := by
  unfold writeBlocks
  obtain ⟨n, hn⟩ : ∃ n, b.length = n + 1 := ⟨b.length - 1, by omega⟩
  rw [hn]
  simp only [writeBlocksLoop, hb, if_true]
  apply writeBlocksLoop_fuel
  · simp only [List.length_drop]; omega
  · simp only [List.length_drop]; omega

theorem writeBlocks_rest_lt (n : Nat) :
    ∀ (v : Lanes) (b : List UInt8), b.length ≤ n → (writeBlocks v b).2.length < 32 := by
  induction n using Nat.strong_induction_on with
  | _ n ih =>
    intro v b hn
    by_cases hb : 32 ≤ b.length
    · rw [writeBlocks_step v b hb]
      exact ih (n - 32) (by omega) _ _ (by simp only [List.length_drop]; omega)
    · rw [writeBlocks_short v b (by omega)]
      simpa using hb

theorem u64_take (b : List UInt8) (k n : Nat) (h : k + 8 ≤ n) :
    u64 ((b.take n).drop k) = u64 (b.drop k) := by
  unfold u64
  rw [List.drop_take, List.take_take]
  have : min 8 (n - k) = 8 := by omega
  rw [this]

theorem roundBlock_take (v : Lanes) (b : List UInt8) :
    roundBlock v (b.take 32) = roundBlock v b := by
  have h0 := u64_take b 0 32 (by omega)
  simp only [List.drop_zero] at h0
  unfold roundBlock
  rw [h0, u64_take b 8 32 (by omega), u64_take b 16 32 (by omega),
    u64_take b 24 32 (by omega)]

theorem roundBlock_append (v : Lanes) (a b : List UInt8) (ha : 32 ≤ a.length) :
    roundBlock v (a ++ b) = roundBlock v a := by
  rw [← roundBlock_take v (a ++ b), ← roundBlock_take v a, List.take_append_of_le_length ha]

theorem writeBlocks_ite (v : Lanes) (b : List UInt8) :
    (if 32 ≤ b.length then writeBlocks v b else (v, b)) = writeBlocks v b := by
  by_cases hb : 32 ≤ b.length
  · simp [hb]
  · simp [hb, writeBlocks_short v b (by omega)]

/-- `Write` in closed form: the buffered bytes followed by the new ones go through
`writeBlocks`, what is left over is buffered. -/
theorem Write_eq (x : Digest) (b : List UInt8) (hx : x.mem.length < 32) :
    x.Write b =
      { v := (writeBlocks x.v (x.mem ++ b)).1
        total := x.total + b.length
        mem := (writeBlocks x.v (x.mem ++ b)).2 } := by
  unfold Digest.Write
  by_cases h1 : x.mem.length + b.length < 32
  · simp only [h1, if_true]
    rw [writeBlocks_short x.v (x.mem ++ b) (by simpa using h1)]
  · simp only [h1, if_false]
    by_cases h2 : 0 < x.mem.length
    · simp only [h2, if_true, writeBlocks_ite]
      have hlen : 32 ≤ (x.mem ++ b).length := by simp only [List.length_append]; omega
      have htake : (x.mem ++ b).take 32 = x.mem ++ b.take (32 - x.mem.length) := by
        rw [List.take_append_eq_append_take, List.take_of_length_le (by omega)]
      have hdrop : (x.mem ++ b).drop 32 = b.drop (32 - x.mem.length) := by
        rw [List.drop_append_eq_append_drop, List.drop_of_length_le (by omega)]
        simp
      rw [writeBlocks_step x.v (x.mem ++ b) hlen, hdrop, ← roundBlock_take x.v (x.mem ++ b),
        htake]
    · have hm : x.mem = [] := List.length_eq_zero.mp (by omega)
      simp [writeBlocks_ite, hm]

theorem Write_mem_lt (x : Digest) (b : List UInt8) (hx : x.mem.length < 32) :
    (x.Write b).mem.length < 32 := by
  rw [Write_eq x b hx]
  exact writeBlocks_rest_lt _ _ _ (Nat.le_refl _)

theorem writeBlocks_append (n : Nat) :
    ∀ (v : Lanes) (l b : List UInt8), l.length ≤ n →
      writeBlocks v (l ++ b) = writeBlocks (writeBlocks v l).1 ((writeBlocks v l).2 ++ b) := by
  induction n using Nat.strong_induction_on with
  | _ n ih =>
    intro v l b hn
    by_cases hl : 32 ≤ l.length
    · have hlen : 32 ≤ (l ++ b).length := by simp only [List.length_append]; omega
      rw [writeBlocks_step v (l ++ b) hlen, roundBlock_append v l b hl,
        List.drop_append_of_le_length hl, writeBlocks_step v l hl]
      exact ih (n - 32) (by omega) _ _ _ (by simp only [List.length_drop]; omega)
    · rw [writeBlocks_short v l (by omega)]

/-- Two writes in a row are one write of the concatenation. -/
theorem Write_Write (x : Digest) (a b : List UInt8) (hx : x.mem.length < 32) :
    (x.Write a).Write b = x.Write (a ++ b) := by
  rw [Write_eq (x.Write a) b (Write_mem_lt x a hx), Write_eq x (a ++ b) hx, Write_eq x a hx]
  simp only [List.length_append, Nat.add_assoc]
  rw [← List.append_assoc, writeBlocks_append _ x.v (x.mem ++ a) b (Nat.le_refl _)]

theorem Write_nil (x : Digest) (hx : x.mem.length < 32) : x.Write [] = x := by
  unfold Digest.Write
  simp [hx]

/-- Any sequence of writes is one write of the concatenation of the pieces. -/
theorem foldl_Write (chunks : List (List UInt8)) :
    ∀ (x : Digest), x.mem.length < 32 →
      chunks.foldl Digest.Write x = x.Write chunks.flatten := by
  induction chunks with
  | nil => intro x hx; simp [Write_nil x hx]
  | cons c cs ih =>
    intro x hx
    simp only [List.foldl_cons, List.flatten_cons]
    rw [ih (x.Write c) (Write_mem_lt x c hx), Write_Write x c _ hx]

theorem New_mem_lt : New.mem.length < 32 := by decide

theorem avalanche_lt (h : Nat) : avalanche h < 2 ^ 64 := by
  unfold avalanche
  simp only
  apply Nat.xor_lt_two_pow
  · exact Nat.mod_lt _ (by norm_num)
  · rw [Nat.shiftRight_eq_div_pow]
    exact Nat.lt_of_le_of_lt (Nat.div_le_self _ _) (Nat.mod_lt _ (by norm_num))

/-- A digest is a 64-bit value. -/
theorem Sum64_lt (x : Digest) : x.Sum64 < 2 ^ 64 := by
  unfold Digest.Sum64
  exact avalanche_lt _

end xxhash

/-- The read loop in terms of `Reader.Read`, as the source has it. -/
theorem hashLoop_eq (r : Reader) (h : xxhash.Digest) :
    hashLoop r.pending r.calls h =
      (let res := r.Read.1
       let r' := r.Read.2
       if res.err ≠ none ∧ res.err ≠ some GoError.EOF then
         .error (Panic.hashing (res.err.getD GoError.EOF))
       else if res.data.length = 0 then .ok (h, r')
       else hashLoop r'.pending r'.calls (h.Write res.data)) := by
  obtain ⟨pending, calls⟩ := r
  cases pending with
  | nil => simp [hashLoop, Reader.Read]
  | cons res rest =>
    obtain ⟨data, err⟩ := res
    cases err with
    | none => simp [hashLoop, Reader.Read]
    | some e => cases e <;> simp [hashLoop, Reader.Read]

/-- Reads that each deliver at least one byte with no error but `io.EOF` are all written
to the digest; the loop goes on with what follows them. -/
theorem hashLoop_continues (pre : List ReadResult) :
    ∀ (calls : Nat) (h : xxhash.Digest) (rest : List ReadResult),
      (∀ r ∈ pre, r.Continues) →
      hashLoop (pre ++ rest) calls h =
        hashLoop rest (calls + pre.length) (pre.foldl (fun h r => h.Write r.data) h) := by
  induction pre with
  | nil => intro calls h rest _; rfl
  | cons r rs ih =>
    intro calls h rest hpre
    have hr : r.Continues := hpre r (List.mem_cons_self _ _)
    have hrs : ∀ s ∈ rs, s.Continues := fun s hs => hpre s (List.mem_cons_of_mem _ hs)
    have step : hashLoop (r :: (rs ++ rest)) calls h =
        hashLoop (rs ++ rest) (calls + 1) (h.Write r.data) := by
      obtain ⟨data, err⟩ := r
      obtain ⟨hd, he⟩ := hr
      cases err with
      | none => simp [hashLoop, hd]
      | some e =>
        cases e with
        | EOF => simp [hashLoop, hd]
        | other msg => exact absurd rfl (he msg)
    rw [List.cons_append, step, ih (calls + 1) (h.Write r.data) rest hrs]
    simp only [List.foldl_cons, List.length_cons]
    congr 1
    omega

/-- A read of zero bytes with no error but `io.EOF` ends the loop. -/
theorem hashLoop_stop (err : Option GoError) (rest : List ReadResult) (calls : Nat)
    (h : xxhash.Digest) (he : ∀ msg, err ≠ some (GoError.other msg)) :
    hashLoop ({ data := [], err := err } :: rest) calls h =
      .ok (h, { pending := rest, calls := calls + 1 }) := by
  cases err with
  | none => simp [hashLoop]
  | some e =>
    cases e with
    | EOF => simp [hashLoop]
    | other msg => exact absurd rfl (he msg)

/-- A read that returns an error other than `io.EOF` makes the loop panic with it. -/
theorem hashLoop_fail (data : List UInt8) (msg : String) (rest : List ReadResult)
    (calls : Nat) (h : xxhash.Digest) :
    hashLoop ({ data := data, err := some (GoError.other msg) } :: rest) calls h =
      .error (Panic.hashing (GoError.other msg)) := by
  simp [hashLoop]

/-- The writes of the read loop add up to one write of all the bytes read. -/
theorem foldl_Write_data (pre : List ReadResult) (h : xxhash.Digest) (hh : h.mem.length < 32) :
    pre.foldl (fun h r => h.Write r.data) h = h.Write (pre.map (fun r => r.data)).flatten := by
  rw [← xxhash.foldl_Write _ h hh, List.foldl_map]

/-- The second stage of `getHashFromReader` is the digest of the two pieces together. -/
theorem secondStage_eq (a b : List UInt8) :
    ((xxhash.New.Write a).Write b).Sum64 = xxhash.Sum64 (a ++ b) := by
  rw [xxhash.Write_Write _ _ _ xxhash.New_mem_lt]
  rfl

/-- On a reader that delivers `chunks`, each non-empty, and then ends, the function
returns the fingerprint of their concatenation after `chunks.length + 1` reads. -/
theorem getHashFromReader_ofChunks (Path : FileNode → String) (chunks : List (List UInt8))
    (p : String) (hne : ∀ c ∈ chunks, c ≠ []) :
    getHashFromReader Path (Reader.ofChunks chunks) p =
      .ok (specFingerprint Path chunks.flatten p,
        { pending := [], calls := chunks.length + 1 }) := by
  have hpre : ∀ r ∈ chunks.map (fun c => ({ data := c, err := none } : ReadResult)),
      r.Continues := by
    intro r hr
    obtain ⟨c, hc, rfl⟩ := List.mem_map.mp hr
    exact ⟨hne c hc, fun msg => by simp⟩
  unfold getHashFromReader Reader.ofChunks
  simp only
  rw [hashLoop_continues _ 0 xxhash.New _ hpre, foldl_Write_data _ _ xxhash.New_mem_lt,
    hashLoop_stop _ _ _ _ (fun msg => by simp)]
  simp only [List.length_map, List.map_map, Nat.zero_add]
  rw [secondStage_eq]
  have hmap : (chunks.map ((fun r : ReadResult => r.data) ∘ fun c => { data := c, err := none }))
      = chunks := by
    simp [Function.comp_def]
  rw [hmap]
  rfl

/-! ## The constructors, case by case -/

/-- A directory header: no hashing, the record is built from the header alone. -/
theorem NewFileInfoFromTarHeader_dir (Path : FileNode → String) (reader : Reader)
    (header : tar.Header) (path : String) (hd : header.Typeflag = tar.TypeDir) :
    NewFileInfoFromTarHeader Path reader header path =
      .ok ({ Path := path, TypeFlag := header.Typeflag, Linkname := header.Linkname, Hash := 0,
             Size := header.Size, Mode := header.FileInfo_Mode, Uid := header.Uid,
             Gid := header.Gid, IsDir := header.FileInfo_IsDir }, reader) := by
  simp [NewFileInfoFromTarHeader, hd, tar.Header.FileInfo_Size]

/-- Any other header: the record carries the hash of the content stream. -/
theorem NewFileInfoFromTarHeader_nondir (Path : FileNode → String) (reader : Reader)
    (header : tar.Header) (path : String) (hd : header.Typeflag ≠ tar.TypeDir) :
    NewFileInfoFromTarHeader Path reader header path =
      match getHashFromReader Path reader path with
      | .error p => .error p
      | .ok (hash, reader) =>
        .ok ({ Path := path, TypeFlag := header.Typeflag, Linkname := header.Linkname,
               Hash := hash, Size := header.Size, Mode := header.FileInfo_Mode,
               Uid := header.Uid, Gid := header.Gid, IsDir := header.FileInfo_IsDir },
             reader) := by
  simp only [NewFileInfoFromTarHeader, hd, ne_eq, not_false_eq_true, if_true,
    tar.Header.FileInfo_Size]

/-- Every record built from a tar header copies the header fields. -/
theorem NewFileInfoFromTarHeader_fields (Path : FileNode → String) (reader : Reader)
    (header : tar.Header) (path : String) (fi : FileInfo) (r : Reader)
    (h : NewFileInfoFromTarHeader Path reader header path = .ok (fi, r)) :
    fi.Path = path ∧ fi.TypeFlag = header.Typeflag ∧ fi.Linkname = header.Linkname ∧
      fi.Size = header.Size ∧ fi.Mode = header.FileInfo_Mode ∧ fi.Uid = header.Uid ∧
      fi.Gid = header.Gid ∧ fi.IsDir = header.FileInfo_IsDir := by
  by_cases hd : header.Typeflag = tar.TypeDir
  · rw [NewFileInfoFromTarHeader_dir Path reader header path hd] at h
    cases h
    simp
  · rw [NewFileInfoFromTarHeader_nondir Path reader header path hd] at h
    cases hg : getHashFromReader Path reader path with
    | error p => simp [hg] at h
    | ok res =>
      simp only [hg] at h
      cases h
      simp

/-- The symbolic-link branch of `NewFileInfo`. -/
theorem NewFileInfo_symlink (Path : FileNode → String) (fs : FileSystem)
    (realPath path : String) (info : os.FileInfo) (hs : info.Mode &&& os.ModeSymlink ≠ 0) :
    NewFileInfo Path fs realPath path info =
      match fs.Readlink realPath with
      | .error err => .error (Panic.readLink realPath err)
      | .ok linkName =>
        match fs.Open realPath with
        | .error _ => .error (Panic.openFile realPath)
        | .ok file =>
          match getHashFromReader Path file path with
          | .error p => .error p
          | .ok (hash, file) =>
            .ok ({ Path := path, TypeFlag := tar.TypeSymlink, Linkname := linkName,
                   Hash := hash, Size := 0, Mode := info.Mode, Uid := -1, Gid := -1,
                   IsDir := info.IsDir }, some file) := by
  simp only [NewFileInfo, classify, hs, ne_eq, not_false_eq_true, if_true]
  cases fs.Readlink realPath with
  | error err => rfl
  | ok linkName =>
    have hne : tar.TypeSymlink ≠ tar.TypeDir := by decide
    simp only [hne, ne_eq, not_false_eq_true, if_true]
    cases fs.Open realPath with
    | error err => rfl
    | ok file =>
      simp only
      cases getHashFromReader Path file path with
      | error p => rfl
      | ok res => rfl

/-- The directory branch of `NewFileInfo`: nothing is opened, nothing is hashed. -/
theorem NewFileInfo_dir (Path : FileNode → String) (fs : FileSystem)
    (realPath path : String) (info : os.FileInfo) (hs : info.Mode &&& os.ModeSymlink = 0)
    (hd : info.IsDir = true) :
    NewFileInfo Path fs realPath path info =
      .ok ({ Path := path, TypeFlag := tar.TypeDir, Linkname := "", Hash := 0, Size := 0,
             Mode := info.Mode, Uid := -1, Gid := -1, IsDir := info.IsDir }, none) := by
  simp [NewFileInfo, classify, hs, hd]

/-- The regular-file branch of `NewFileInfo`. -/
theorem NewFileInfo_regular (Path : FileNode → String) (fs : FileSystem)
    (realPath path : String) (info : os.FileInfo) (hs : info.Mode &&& os.ModeSymlink = 0)
    (hd : info.IsDir = false) :
    NewFileInfo Path fs realPath path info =
      match fs.Open realPath with
      | .error _ => .error (Panic.openFile realPath)
      | .ok file =>
        match getHashFromReader Path file path with
        | .error p => .error p
        | .ok (hash, file) =>
          .ok ({ Path := path, TypeFlag := tar.TypeReg, Linkname := "", Hash := hash,
                 Size := info.Size, Mode := info.Mode, Uid := -1, Gid := -1,
                 IsDir := info.IsDir }, some file) := by
  have hne : tar.TypeReg ≠ tar.TypeDir := by decide
  simp only [NewFileInfo, classify, hs, hd, ne_eq, not_true_eq_false, if_false, hne,
    not_false_eq_true, if_true, Bool.false_eq_true]
  cases fs.Open realPath with
  | error err => rfl
  | ok file =>
    simp only
    cases getHashFromReader Path file path with
    | error p => rfl
    | ok res => rfl

/-- A record of `NewFileInfo` with the directory marker comes from the directory branch. -/
theorem NewFileInfo_dir_inv (Path : FileNode → String) (fs : FileSystem)
    (realPath path : String) (info : os.FileInfo) (fi : FileInfo) (file : Option Reader)
    (h : NewFileInfo Path fs realPath path info = .ok (fi, file))
    (ht : fi.TypeFlag = tar.TypeDir) :
    info.Mode &&& os.ModeSymlink = 0 ∧ info.IsDir = true := by
  by_cases hs : info.Mode &&& os.ModeSymlink = 0
  · cases hd : info.IsDir with
    | true => exact ⟨hs, rfl⟩
    | false =>
      exfalso
      rw [NewFileInfo_regular Path fs realPath path info hs hd] at h
      cases ho : fs.Open realPath with
      | error err => simp [ho] at h
      | ok f =>
        cases hg : getHashFromReader Path f path with
        | error p => simp [ho, hg] at h
        | ok res =>
          simp only [ho, hg] at h
          cases h
          exact absurd ht (show tar.TypeReg ≠ tar.TypeDir by decide)
  · exfalso
    rw [NewFileInfo_symlink Path fs realPath path info hs] at h
    cases hl : fs.Readlink realPath with
    | error err => simp [hl] at h
    | ok target =>
      cases ho : fs.Open realPath with
      | error err => simp [hl, ho] at h
      | ok f =>
        cases hg : getHashFromReader Path f path with
        | error p => simp [hl, ho, hg] at h
        | ok res =>
          simp only [hl, ho, hg] at h
          cases h
          exact absurd ht (show tar.TypeSymlink ≠ tar.TypeDir by decide)

/-- When the loop ends normally it has made `n` reads, none of which returned an error
other than `io.EOF`, and leaves the reader after them. -/
theorem hashLoop_ok_inv (pending : List ReadResult) :
    ∀ (calls : Nat) (h h' : xxhash.Digest) (r' : Reader),
      hashLoop pending calls h = .ok (h', r') →
      ∃ n, r'.calls = calls + n ∧ r'.pending = pending.drop n ∧
        ∀ res ∈ pending.take n, ∀ msg, res.err ≠ some (GoError.other msg) := by
  induction pending with
  | nil =>
    intro calls h h' r' hr
    simp only [hashLoop, Except.ok.injEq, Prod.mk.injEq] at hr
    refine ⟨1, ?_, ?_, ?_⟩
    · rw [← hr.2]
    · rw [← hr.2]; rfl
    · intro res hres; simp at hres
  | cons res rest ih =>
    intro calls h h' r' hr
    obtain ⟨data, err⟩ := res
    have key : (∀ msg, err ≠ some (GoError.other msg)) ∧
        ((data.length = 0 ∧ r' = { pending := rest, calls := calls + 1 }) ∨
         (data.length ≠ 0 ∧ hashLoop rest (calls + 1) (h.Write data) = .ok (h', r'))) := by
      cases err with
      | none =>
        refine ⟨fun msg => by simp, ?_⟩
        by_cases hd : data.length = 0
        · simp only [hashLoop, hd, if_true, Except.ok.injEq, Prod.mk.injEq] at hr
          exact Or.inl ⟨hd, hr.2.symm⟩
        · simp only [hashLoop, hd, if_false] at hr
          exact Or.inr ⟨hd, hr⟩
      | some e =>
        cases e with
        | EOF =>
          refine ⟨fun msg => by simp, ?_⟩
          by_cases hd : data.length = 0
          · simp only [hashLoop, hd, if_true, Except.ok.injEq, Prod.mk.injEq] at hr
            exact Or.inl ⟨hd, hr.2.symm⟩
          · simp only [hashLoop, hd, if_false] at hr
            exact Or.inr ⟨hd, hr⟩
        | other msg => simp [hashLoop] at hr
    obtain ⟨herr, hcase⟩ := key
    rcases hcase with ⟨_, hr'⟩ | ⟨_, hrec⟩
    · refine ⟨1, by rw [hr'], by rw [hr']; rfl, ?_⟩
      intro res hres msg
      simp only [List.take_succ_cons, List.take_zero, List.mem_singleton] at hres
      rw [hres]
      exact herr msg
    · obtain ⟨n, hn1, hn2, hn3⟩ := ih (calls + 1) (h.Write data) h' r' hrec
      refine ⟨n + 1, by omega, by simpa using hn2, ?_⟩
      intro res hres msg
      simp only [List.take_succ_cons, List.mem_cons] at hres
      rcases hres with hres | hres
      · rw [hres]; exact herr msg
      · exact hn3 res hres msg

theorem specFingerprint_lt (Path : FileNode → String) (c : List UInt8) (p : String) :
    specFingerprint Path c p < 2 ^ 64 :=
  xxhash.Sum64_lt _

/-- There are more paths than 64-bit values: for every content two different paths have
the same fingerprint. -/
theorem specFingerprint_collision (Path : FileNode → String) (c : List UInt8) :
    ∃ p q : String, p ≠ q ∧ specFingerprint Path c p = specFingerprint Path c q := by
  let f : Fin (2 ^ 64 + 1) → Fin (2 ^ 64) := fun i =>
    ⟨specFingerprint Path c (String.mk (List.replicate i.val 'a')), specFingerprint_lt _ _ _⟩
  obtain ⟨i, j, hij, hf⟩ := Fintype.exists_ne_map_eq_of_card_lt f
    (by rw [Fintype.card_fin, Fintype.card_fin]; exact Nat.lt_succ_self _)
  refine ⟨String.mk (List.replicate i.val 'a'), String.mk (List.replicate j.val 'a'), ?_, ?_⟩
  · intro h
    apply hij
    have hl := congrArg String.length h
    simp only [String.length, List.length_replicate] at hl
    exact Fin.ext hl
  · exact congrArg Fin.val hf

/-- Every record of `NewFileInfo` comes from one of its three branches. -/
theorem NewFileInfo_inv (Path : FileNode → String) (fs : FileSystem)
    (realPath path : String) (info : os.FileInfo) (fi : FileInfo) (file : Option Reader)
    (h : NewFileInfo Path fs realPath path info = .ok (fi, file)) :
    (info.Mode &&& os.ModeSymlink ≠ 0 ∧ ∃ target hash,
      fi = { Path := path, TypeFlag := tar.TypeSymlink, Linkname := target, Hash := hash,
             Size := 0, Mode := info.Mode, Uid := -1, Gid := -1, IsDir := info.IsDir }) ∨
    (info.Mode &&& os.ModeSymlink = 0 ∧ info.IsDir = true ∧
      fi = { Path := path, TypeFlag := tar.TypeDir, Linkname := "", Hash := 0,
             Size := 0, Mode := info.Mode, Uid := -1, Gid := -1, IsDir := info.IsDir }) ∨
    (info.Mode &&& os.ModeSymlink = 0 ∧ info.IsDir = false ∧ ∃ hash,
      fi = { Path := path, TypeFlag := tar.TypeReg, Linkname := "", Hash := hash,
             Size := info.Size, Mode := info.Mode, Uid := -1, Gid := -1,
             IsDir := info.IsDir }) := by
  by_cases hs : info.Mode &&& os.ModeSymlink = 0
  · cases hd : info.IsDir with
    | true =>
      rw [NewFileInfo_dir Path fs realPath path info hs hd] at h
      cases h
      exact Or.inr (Or.inl ⟨hs, rfl, by rw [hd]⟩)
    | false =>
      rw [NewFileInfo_regular Path fs realPath path info hs hd] at h
      cases ho : fs.Open realPath with
      | error err => simp [ho] at h
      | ok f =>
        cases hg : getHashFromReader Path f path with
        | error p => simp [ho, hg] at h
        | ok res =>
          simp only [ho, hg] at h
          cases h
          exact Or.inr (Or.inr ⟨hs, rfl, res.1, by rw [hd]⟩)
  · rw [NewFileInfo_symlink Path fs realPath path info hs] at h
    cases hl : fs.Readlink realPath with
    | error err => simp [hl] at h
    | ok target =>
      cases ho : fs.Open realPath with
      | error err => simp [hl, ho] at h
      | ok f =>
        cases hg : getHashFromReader Path f path with
        | error p => simp [hl, ho, hg] at h
        | ok res =>
          simp only [hl, ho, hg] at h
          cases h
          exact Or.inl ⟨hs, target, res.1, rfl⟩

/-- The directory bit of a mode is bit 31. -/
theorem FileMode_IsDir_iff (m : Nat) : os.FileMode_IsDir m = true ↔ m.testBit 31 = true := by
  unfold os.FileMode_IsDir os.ModeDir
  rw [decide_eq_true_iff, Nat.and_two_pow]
  cases m.testBit 31 <;> simp

theorem testBit31_or (a b : Nat) : (a ||| b).testBit 31 = (a.testBit 31 || b.testBit 31) :=
  Nat.testBit_or a b 31

/-- The permission, setuid, setgid and sticky bits leave the directory bit clear. -/
theorem permBits_testBit (fileMode hMode : Nat) :
    (if hMode &&& tar.c_ISVTX ≠ 0 then
        (if hMode &&& tar.c_ISGID ≠ 0 then
            (if hMode &&& tar.c_ISUID ≠ 0 then fileMode &&& os.ModePerm ||| os.ModeSetuid
              else fileMode &&& os.ModePerm) ||| os.ModeSetgid
          else
            if hMode &&& tar.c_ISUID ≠ 0 then fileMode &&& os.ModePerm ||| os.ModeSetuid
            else fileMode &&& os.ModePerm) ||| os.ModeSticky
      else
        if hMode &&& tar.c_ISGID ≠ 0 then
          (if hMode &&& tar.c_ISUID ≠ 0 then fileMode &&& os.ModePerm ||| os.ModeSetuid
            else fileMode &&& os.ModePerm) ||| os.ModeSetgid
        else
          if hMode &&& tar.c_ISUID ≠ 0 then fileMode &&& os.ModePerm ||| os.ModeSetuid
          else fileMode &&& os.ModePerm).testBit 31 = false := by
  have e1 : os.ModePerm.testBit 31 = false := by decide
  have e2 : os.ModeSetuid.testBit 31 = false := by decide
  have e3 : os.ModeSetgid.testBit 31 = false := by decide
  have e4 : os.ModeSticky.testBit 31 = false := by decide
  split_ifs <;> simp [testBit31_or, Nat.testBit_and, e1, e2, e3, e4]

/-- The switch on the type bits of the mode field sets the directory bit for `c_ISDIR`
only. -/
theorem typeBits_testBit (mode m : Nat) :
    (if m = tar.c_ISDIR then mode ||| os.ModeDir
      else if m = tar.c_ISFIFO then mode ||| os.ModeNamedPipe
      else if m = tar.c_ISLNK then mode ||| os.ModeSymlink
      else if m = tar.c_ISBLK then mode ||| os.ModeDevice
      else if m = tar.c_ISCHR then mode ||| os.ModeDevice ||| os.ModeCharDevice
      else if m = tar.c_ISSOCK then mode ||| os.ModeSocket
      else mode).testBit 31 = (mode.testBit 31 || decide (m = tar.c_ISDIR)) := by
  have e5 : os.ModeDir.testBit 31 = true := by decide
  have e6 : os.ModeNamedPipe.testBit 31 = false := by decide
  have e7 : os.ModeSymlink.testBit 31 = false := by decide
  have e8 : os.ModeDevice.testBit 31 = false := by decide
  have e9 : os.ModeCharDevice.testBit 31 = false := by decide
  have e10 : os.ModeSocket.testBit 31 = false := by decide
  split_ifs with h1 <;> simp [testBit31_or, e5, e6, e7, e8, e9, e10, h1]

/-- The switch on the type flag sets the directory bit for `TypeDir` only. -/
theorem typeflag_testBit (mode tf : Nat) :
    (if tf = tar.TypeSymlink then mode ||| os.ModeSymlink
      else if tf = tar.TypeChar then mode ||| os.ModeDevice ||| os.ModeCharDevice
      else if tf = tar.TypeBlock then mode ||| os.ModeDevice
      else if tf = tar.TypeDir then mode ||| os.ModeDir
      else if tf = tar.TypeFifo then mode ||| os.ModeNamedPipe
      else mode).testBit 31 = (mode.testBit 31 || decide (tf = tar.TypeDir)) := by
  have e5 : os.ModeDir.testBit 31 = true := by decide
  have e6 : os.ModeNamedPipe.testBit 31 = false := by decide
  have e7 : os.ModeSymlink.testBit 31 = false := by decide
  have e8 : os.ModeDevice.testBit 31 = false := by decide
  have e9 : os.ModeCharDevice.testBit 31 = false := by decide
  have t1 : tar.TypeSymlink ≠ tar.TypeDir := by decide
  have t2 : tar.TypeChar ≠ tar.TypeDir := by decide
  have t3 : tar.TypeBlock ≠ tar.TypeDir := by decide
  split_ifs <;> simp_all [testBit31_or]

/-- The mode of a tar header has the directory bit exactly when the type flag is the
directory marker or the type bits of the mode field are those of a directory. -/
theorem Header_FileInfo_IsDir_iff (h : tar.Header) :
    h.FileInfo_IsDir = true ↔
      (h.Typeflag = tar.TypeDir ∨
        (tar.bits64 h.Mode % 2 ^ 32) &&& (0xFFFFFFFF ^^^ 0o7777) = tar.c_ISDIR) := by
  unfold tar.Header.FileInfo_IsDir
  rw [FileMode_IsDir_iff]
  unfold tar.Header.FileInfo_Mode
  simp only
  rw [typeflag_testBit, typeBits_testBit, permBits_testBit]
  simp only [Bool.false_or, Bool.or_eq_true, decide_eq_true_eq]
  exact Or.comm

/-- The verdict is `Unmodified` exactly when the five compared fields agree. -/
theorem Compare_eq_Unmodified (a b : FileInfo) :
    a.Compare b = DiffType.Unmodified ↔
      (a.TypeFlag = b.TypeFlag ∧ a.Hash = b.Hash ∧ a.Mode = b.Mode ∧ a.Uid = b.Uid ∧
        a.Gid = b.Gid) := by
  unfold FileInfo.Compare
  by_cases ht : a.TypeFlag = b.TypeFlag
  · by_cases hr : a.Hash = b.Hash ∧ a.Mode = b.Mode ∧ a.Uid = b.Uid ∧ a.Gid = b.Gid
    · simp [ht, hr]
    · simp only [ht, hr, if_true, if_false, true_and]
      simp
  · simp [ht]

/-- The verdict is `Modified` when the hashes differ. -/
theorem Compare_of_Hash_ne (a b : FileInfo) (h : a.Hash ≠ b.Hash) :
    a.Compare b = DiffType.Modified := by
  cases hc : a.Compare b with
  | Modified => rfl
  | Unmodified => exact absurd ((Compare_eq_Unmodified a b).mp hc).2.1 h

/-- The mode of a tar header depends on its mode field and type flag only. -/
theorem Header_FileInfo_Mode_congr (h1 h2 : tar.Header) (ht : h1.Typeflag = h2.Typeflag)
    (hm : h1.Mode = h2.Mode) : h1.FileInfo_Mode = h2.FileInfo_Mode := by
  unfold tar.Header.FileInfo_Mode
  rw [ht, hm]

/-- The record built from a header that is not a directory, over a reader that delivers
`chunks` and then ends. -/
theorem NewFileInfoFromTarHeader_ofChunks (Path : FileNode → String)
    (chunks : List (List UInt8)) (header : tar.Header) (path : String)
    (hd : header.Typeflag ≠ tar.TypeDir) (hne : ∀ c ∈ chunks, c ≠ []) :
    NewFileInfoFromTarHeader Path (Reader.ofChunks chunks) header path =
      .ok ({ Path := path, TypeFlag := header.Typeflag, Linkname := header.Linkname,
             Hash := specFingerprint Path chunks.flatten path, Size := header.Size,
             Mode := header.FileInfo_Mode, Uid := header.Uid, Gid := header.Gid,
             IsDir := header.FileInfo_IsDir },
           { pending := [], calls := chunks.length + 1 }) := by
  rw [NewFileInfoFromTarHeader_nondir Path _ header path hd,
    getHashFromReader_ofChunks Path chunks path hne]

/-- At the end of the stream the loop stops with the digest it has. -/
theorem hashLoop_end (tail : List ReadResult) (calls : Nat) (h : xxhash.Digest)
    (ht : tail = [] ∨ ∃ post, tail = { data := [], err := some GoError.EOF } :: post) :
    ∃ r', hashLoop tail calls h = .ok (h, r') := by
  rcases ht with rfl | ⟨post, rfl⟩
  · exact ⟨_, rfl⟩
  · exact ⟨_, hashLoop_stop _ post calls h (fun msg => by simp)⟩

/-- On a reader that holds the content `c`, whether its data reads come with `io.EOF` or
not, the function returns the fingerprint of `c`. -/
theorem getHashFromReader_HoldsContent (Path : FileNode → String) (reader : Reader)
    (c : List UInt8) (p : String) (hc : reader.HoldsContent c) :
    ∃ r', getHashFromReader Path reader p = .ok (specFingerprint Path c p, r') := by
  obtain ⟨reads, tail, hp, hreads, hflat, htail⟩ := hc
  have hcont : ∀ x ∈ reads, x.Continues := by
    intro x hx
    obtain ⟨hd, _, he⟩ := hreads x hx
    refine ⟨hd, fun msg hmsg => ?_⟩
    rcases he with he | he <;> rw [he] at hmsg <;> simp at hmsg
  obtain ⟨r', hr'⟩ := hashLoop_end tail (reader.calls + reads.length)
    (reads.foldl (fun h r => h.Write r.data) xxhash.New) htail
  refine ⟨r', ?_⟩
  unfold getHashFromReader
  simp only
  rw [hp, hashLoop_continues reads reader.calls xxhash.New tail hcont, hr',
    foldl_Write_data _ _ xxhash.New_mem_lt, hflat]
  simp only
  rw [secondStage_eq]
  rfl

/-- A reader that delivers `chunks` without error and then `0, io.EOF` holds their
concatenation. -/
theorem ofChunks_HoldsContent (chunks : List (List UInt8)) (c : List UInt8)
    (hc : Delivers chunks c) : (Reader.ofChunks chunks).HoldsContent c := by
  refine ⟨chunks.map (fun d => { data := d, err := none }),
    [{ data := [], err := some GoError.EOF }], rfl, ?_, ?_, Or.inr ⟨[], rfl⟩⟩
  · intro x hx
    obtain ⟨d, hd, rfl⟩ := List.mem_map.mp hx
    exact ⟨(hc.1 d hd).1, (hc.1 d hd).2, Or.inl rfl⟩
  · rw [List.map_map]
    have hmap : chunks.map ((fun x : ReadResult => x.data) ∘ fun d => { data := d, err := none })
        = chunks := by
      simp [Function.comp_def]
    rw [hmap, hc.2]

/-- The record built from a header that is not a directory, over a reader that holds the
content `c`. -/
theorem NewFileInfoFromTarHeader_HoldsContent (Path : FileNode → String) (reader : Reader)
    (c : List UInt8) (header : tar.Header) (path : String)
    (hd : header.Typeflag ≠ tar.TypeDir) (hc : reader.HoldsContent c) :
    ∃ r', NewFileInfoFromTarHeader Path reader header path =
      .ok ({ Path := path, TypeFlag := header.Typeflag, Linkname := header.Linkname,
             Hash := specFingerprint Path c path, Size := header.Size,
             Mode := header.FileInfo_Mode, Uid := header.Uid, Gid := header.Gid,
             IsDir := header.FileInfo_IsDir }, r') := by
  obtain ⟨r', hr'⟩ := getHashFromReader_HoldsContent Path reader c path hc
  refine ⟨r', ?_⟩
  rw [NewFileInfoFromTarHeader_nondir Path reader header path hd, hr']

/-! ## The claims -/

/-- C1: `a.Compare(b)` is `Unmodified` exactly when `TypeFlag`, `Hash`, `Mode`, `Uid`
and `Gid` are all equal, and `Modified` in every other case. -/
theorem Compare_unmodified_iff (a b : FileInfo) :
    (a.Compare b = DiffType.Unmodified ↔
      (a.TypeFlag = b.TypeFlag ∧ a.Hash = b.Hash ∧ a.Mode = b.Mode ∧
        a.Uid = b.Uid ∧ a.Gid = b.Gid)) ∧
    (a.Compare b = DiffType.Modified ↔
      ¬ (a.TypeFlag = b.TypeFlag ∧ a.Hash = b.Hash ∧ a.Mode = b.Mode ∧
        a.Uid = b.Uid ∧ a.Gid = b.Gid)) := by
  unfold FileInfo.Compare
  by_cases ht : a.TypeFlag = b.TypeFlag
  · by_cases hr : a.Hash = b.Hash ∧ a.Mode = b.Mode ∧ a.Uid = b.Uid ∧ a.Gid = b.Gid
    · simp [ht, hr]
    · simp only [ht, hr, if_true, if_false, true_and]
      simp
  · simp [ht]

/-- C2: `Compare` is symmetric, `a.Compare(b)` equals `b.Compare(a)`. -/
theorem Compare_symm (a b : FileInfo) : a.Compare b = b.Compare a := by
  unfold FileInfo.Compare
  by_cases ht : a.TypeFlag = b.TypeFlag
  · by_cases hr : a.Hash = b.Hash ∧ a.Mode = b.Mode ∧ a.Uid = b.Uid ∧ a.Gid = b.Gid
    · have hr2 : b.Hash = a.Hash ∧ b.Mode = a.Mode ∧ b.Uid = a.Uid ∧ b.Gid = a.Gid :=
        ⟨hr.1.symm, hr.2.1.symm, hr.2.2.1.symm, hr.2.2.2.symm⟩
      rw [if_pos ht, if_pos hr, if_pos ht.symm, if_pos hr2]
    · have hr2 : ¬ (b.Hash = a.Hash ∧ b.Mode = a.Mode ∧ b.Uid = a.Uid ∧ b.Gid = a.Gid) :=
        fun h => hr ⟨h.1.symm, h.2.1.symm, h.2.2.1.symm, h.2.2.2.symm⟩
      rw [if_pos ht, if_neg hr, if_pos ht.symm, if_neg hr2]
  · rw [if_neg ht, if_neg (fun h => ht h.symm)]

/-- C3: for a reader that delivers the content `c` as non-empty reads of at most 1024
bytes and then the end of the stream, `getHashFromReader` returns
`H(decimal(H(c)) ++ absPath(p))`, having read the reader to its end. -/
theorem getHashFromReader_eq_specFingerprint (Path : FileNode → String)
    (chunks : List (List UInt8)) (c : List UInt8) (p : String) (hc : Delivers chunks c) :
    getHashFromReader Path (Reader.ofChunks chunks) p =
      .ok (xxhash.Sum64 (bytesOf (FormatUint (xxhash.Sum64 c)) ++ bytesOf (Path { path := p })),
        { pending := [], calls := chunks.length + 1 }) := by
  rw [getHashFromReader_ofChunks Path chunks p (fun x hx => (hc.1 x hx).1), hc.2]
  rfl

/-- Witness of C3: the content "hello" read as "hel" and "lo" under `/a/b.txt`. -/
theorem getHashFromReader_eq_specFingerprint_witness :
    Delivers [bytesOf "hel", bytesOf "lo"] (bytesOf "hello") ∧
    getHashFromReader storedPath (Reader.ofChunks [bytesOf "hel", bytesOf "lo"]) "/a/b.txt" =
      .ok (xxhash.Sum64 (bytesOf (FormatUint (xxhash.Sum64 (bytesOf "hello")))
          ++ bytesOf (storedPath { path := "/a/b.txt" })),
        { pending := [], calls := 3 }) :=
  ⟨⟨by decide, by decide⟩,
    getHashFromReader_eq_specFingerprint storedPath [bytesOf "hel", bytesOf "lo"]
      (bytesOf "hello") "/a/b.txt" ⟨by decide, by decide⟩⟩

/-- C4: two runs of `getHashFromReader` over readers that both deliver the bytes of `c`,
whatever their read boundaries, with the same path return the same value. -/
theorem getHashFromReader_deterministic (Path : FileNode → String)
    (chunks1 chunks2 : List (List UInt8)) (c : List UInt8) (p : String)
    (h1 : Delivers chunks1 c) (h2 : Delivers chunks2 c) :
    ∃ hash : Nat,
      getHashFromReader Path (Reader.ofChunks chunks1) p =
        .ok (hash, { pending := [], calls := chunks1.length + 1 }) ∧
      getHashFromReader Path (Reader.ofChunks chunks2) p =
        .ok (hash, { pending := [], calls := chunks2.length + 1 }) := by
  refine ⟨specFingerprint Path c p, ?_, ?_⟩
  · rw [getHashFromReader_ofChunks Path chunks1 p (fun x hx => (h1.1 x hx).1), h1.2]
  · rw [getHashFromReader_ofChunks Path chunks2 p (fun x hx => (h2.1 x hx).1), h2.2]

/-- Witness of C4: "hello" read in one piece and read as "h", "ell", "o". -/
theorem getHashFromReader_deterministic_witness :
    ∃ hash : Nat,
      getHashFromReader storedPath (Reader.ofChunks [bytesOf "hello"]) "/a/b.txt" =
        .ok (hash, { pending := [], calls := 2 }) ∧
      getHashFromReader storedPath
          (Reader.ofChunks [bytesOf "h", bytesOf "ell", bytesOf "o"]) "/a/b.txt" =
        .ok (hash, { pending := [], calls := 4 }) :=
  getHashFromReader_deterministic storedPath [bytesOf "hello"]
    [bytesOf "h", bytesOf "ell", bytesOf "o"] (bytesOf "hello") "/a/b.txt"
    ⟨by decide, by decide⟩ ⟨by decide, by decide⟩

/-- C5: a record with the directory marker, from either constructor, has `Hash` 0 and was
built without reading: the content reader is returned as it was given
(`NewFileInfoFromTarHeader`), no file was opened (`NewFileInfo`).  Directory inputs do
produce such a record. -/
theorem directory_record_Hash_zero (Path : FileNode → String) (reader : Reader)
    (header : tar.Header) (path : String) (fs : FileSystem) (realPath : String)
    (info : os.FileInfo) :
    (∀ fi r, NewFileInfoFromTarHeader Path reader header path = .ok (fi, r) →
      fi.TypeFlag = tar.TypeDir → fi.Hash = 0 ∧ r = reader) ∧
    (∀ fi file, NewFileInfo Path fs realPath path info = .ok (fi, file) →
      fi.TypeFlag = tar.TypeDir → fi.Hash = 0 ∧ file = none) ∧
    (header.Typeflag = tar.TypeDir →
      ∃ fi, NewFileInfoFromTarHeader Path reader header path = .ok (fi, reader) ∧
        fi.TypeFlag = tar.TypeDir) ∧
    (info.Mode &&& os.ModeSymlink = 0 → info.IsDir = true →
      ∃ fi, NewFileInfo Path fs realPath path info = .ok (fi, none) ∧
        fi.TypeFlag = tar.TypeDir) := by
  refine ⟨?_, ?_, ?_, ?_⟩
  · intro fi r h ht
    have hd : header.Typeflag = tar.TypeDir :=
      (NewFileInfoFromTarHeader_fields Path reader header path fi r h).2.1.symm.trans ht
    rw [NewFileInfoFromTarHeader_dir Path reader header path hd] at h
    cases h
    exact ⟨rfl, rfl⟩
  · intro fi file h ht
    obtain ⟨hs, hd⟩ := NewFileInfo_dir_inv Path fs realPath path info fi file h ht
    rw [NewFileInfo_dir Path fs realPath path info hs hd] at h
    cases h
    exact ⟨rfl, rfl⟩
  · intro hd
    exact ⟨_, NewFileInfoFromTarHeader_dir Path reader header path hd, hd⟩
  · intro hs hd
    exact ⟨_, NewFileInfo_dir Path fs realPath path info hs hd, rfl⟩

/-- Witness of C5: a directory header over a reader holding "hello", and a directory
stat entry. -/
theorem directory_record_Hash_zero_witness :
    (NewFileInfoFromTarHeader storedPath helloReader dirHeader "/a" = .ok (dirRecord, helloReader) ∧
      dirRecord.Hash = 0 ∧ helloReader = helloReader) ∧
    (NewFileInfo storedPath exampleFS "/real/a" "/a" dirStat = .ok (dirStatRecord, none) ∧
      dirStatRecord.Hash = 0 ∧ (none : Option Reader) = none) :=
  ⟨⟨by decide,
      (directory_record_Hash_zero storedPath helloReader dirHeader "/a" exampleFS "/real/a"
        dirStat).1 dirRecord helloReader (by decide) (by decide)⟩,
    ⟨by decide,
      (directory_record_Hash_zero storedPath helloReader dirHeader "/a" exampleFS "/real/a"
        dirStat).2.1 dirStatRecord none (by decide) (by decide)⟩⟩

/-- C6, as stated, fails: a tar header with the directory marker and size field 5 gives
a directory record with `Size` 5. -/
theorem directory_record_Size_counterexample :
    (NewFileInfoFromTarHeader storedPath emptyReader sizedDirHeader "/a").map
        (fun res => (res.1.TypeFlag, res.1.Size)) = .ok (tar.TypeDir, 5) := by
  decide

/-- C6, amended: a record built from a tar header has the header's size field as `Size`,
whatever its `TypeFlag`; a record of `NewFileInfo` with the directory marker has `Size` 0. -/
theorem record_Size (Path : FileNode → String) (reader : Reader)
    (header : tar.Header) (path : String) (fs : FileSystem) (realPath : String)
    (info : os.FileInfo) :
    (∀ fi r, NewFileInfoFromTarHeader Path reader header path = .ok (fi, r) →
      fi.Size = header.Size) ∧
    (∀ fi file, NewFileInfo Path fs realPath path info = .ok (fi, file) →
      fi.TypeFlag = tar.TypeDir → fi.Size = 0) := by
  refine ⟨?_, ?_⟩
  · intro fi r h
    exact (NewFileInfoFromTarHeader_fields Path reader header path fi r h).2.2.2.1
  · intro fi file h ht
    obtain ⟨hs, hd⟩ := NewFileInfo_dir_inv Path fs realPath path info fi file h ht
    rw [NewFileInfo_dir Path fs realPath path info hs hd] at h
    cases h
    rfl

/-- Witness of C6, amended: the directory header with size field 0 and the directory
stat entry. -/
theorem record_Size_witness :
    dirRecord.Size = dirHeader.Size ∧ dirStatRecord.Size = 0 :=
  ⟨(record_Size storedPath helloReader dirHeader "/a" exampleFS "/real/a" dirStat).1
      dirRecord helloReader (by decide),
    (record_Size storedPath helloReader dirHeader "/a" exampleFS "/real/a" dirStat).2
      dirStatRecord none (by decide) (by decide)⟩

/-- C7: `Copy` on `nil` returns `nil` without fault and leaves the heap as it is; `Copy`
on a pointer to a record returns a fresh pointer to a record with the same nine fields,
leaves every existing record unchanged, and no later assignment through the copy changes
the original. -/
theorem Copy_spec :
    (∀ h : Heap, Copy h none = some (none, h)) ∧
    (∀ (h : Heap) (a : Nat) (d : FileInfo), h.load a = some d →
      ∃ a' h' c, Copy h (some a) = some (some a', h') ∧ a' ≠ a ∧ h'.load a' = some c ∧
        (c.Path = d.Path ∧ c.TypeFlag = d.TypeFlag ∧ c.Linkname = d.Linkname ∧
          c.Hash = d.Hash ∧ c.Size = d.Size ∧ c.Mode = d.Mode ∧ c.Uid = d.Uid ∧
          c.Gid = d.Gid ∧ c.IsDir = d.IsDir) ∧
        (∀ b, b < h.cells.length → h'.load b = h.load b) ∧
        h'.load a = some d ∧
        (∀ v : FileInfo, (h'.store a' v).load a = some d)) := by
  refine ⟨fun h => rfl, ?_⟩
  intro h a d hd
  have ha : a < h.cells.length := by
    unfold Heap.load at hd
    exact (List.getElem?_eq_some.mp hd).1
  have hkeep : ∀ b, b < h.cells.length →
      (Heap.load { cells := h.cells ++ [d] } b) = h.load b := by
    intro b hb
    unfold Heap.load
    exact List.getElem?_append_left hb
  refine ⟨h.cells.length, { cells := h.cells ++ [d] }, d, ?_, ?_, ?_, ?_, hkeep, ?_, ?_⟩
  · simp [Copy, hd, Heap.alloc]
  · omega
  · simp [Heap.load]
  · exact ⟨rfl, rfl, rfl, rfl, rfl, rfl, rfl, rfl, rfl⟩
  · rw [hkeep a ha, hd]
  · intro v
    have hne : h.cells.length ≠ a := by omega
    unfold Heap.store Heap.load
    simp only
    rw [List.getElem?_set_ne hne]
    exact (hkeep a ha).trans hd

/-- Witness of C7: copying the first record of a two-record heap, then overwriting the
copy. -/
theorem Copy_spec_witness :
    exampleHeap.load 0 = some dirRecord ∧
    ∃ a' h' c, Copy exampleHeap (some 0) = some (some a', h') ∧ a' ≠ 0 ∧
      h'.load a' = some c ∧
      (c.Path = dirRecord.Path ∧ c.TypeFlag = dirRecord.TypeFlag ∧
        c.Linkname = dirRecord.Linkname ∧ c.Hash = dirRecord.Hash ∧ c.Size = dirRecord.Size ∧
        c.Mode = dirRecord.Mode ∧ c.Uid = dirRecord.Uid ∧ c.Gid = dirRecord.Gid ∧
        c.IsDir = dirRecord.IsDir) ∧
      (∀ b, b < exampleHeap.cells.length → h'.load b = exampleHeap.load b) ∧
      h'.load 0 = some dirRecord ∧
      (∀ v : FileInfo, (h'.store a' v).load 0 = some dirRecord) :=
  ⟨by decide, Copy_spec.2 exampleHeap 0 dirRecord (by decide)⟩

/-- C8, as stated, fails: the reader delivers "he", then a read of zero bytes without
error, and its next read would return `unexpected EOF`; `getHashFromReader` stops at the
empty read and returns the fingerprint of "he". -/
theorem read_error_counterexample :
    getHashFromReader storedPath stalledReader "/a/b.txt" =
      .ok (specFingerprint storedPath (bytesOf "he") "/a/b.txt",
        { pending := [{ data := [], err := some (GoError.other "unexpected EOF") }],
          calls := 2 }) := by
  decide

/-- C8, amended: when a read returns an error other than `io.EOF` and every read before
it delivered at least one byte (with no error but `io.EOF`), `getHashFromReader` panics
with that error; and when it returns a fingerprint, none of the reads it made returned an
error other than `io.EOF`. -/
theorem getHashFromReader_read_error (Path : FileNode → String) (p : String) :
    (∀ (pre post : List ReadResult) (data : List UInt8) (msg : String) (calls : Nat),
      (∀ r ∈ pre, r.Continues) →
      getHashFromReader Path
          { pending := pre ++ { data := data, err := some (GoError.other msg) } :: post,
            calls := calls } p =
        .error (Panic.hashing (GoError.other msg))) ∧
    (∀ (reader : Reader) (hash : Nat) (r' : Reader),
      getHashFromReader Path reader p = .ok (hash, r') →
      ∃ n, r'.calls = reader.calls + n ∧ r'.pending = reader.pending.drop n ∧
        ∀ res ∈ reader.pending.take n, ∀ msg, res.err ≠ some (GoError.other msg)) := by
  refine ⟨?_, ?_⟩
  · intro pre post data msg calls hpre
    unfold getHashFromReader
    simp only
    rw [hashLoop_continues pre calls xxhash.New _ hpre, hashLoop_fail]
  · intro reader hash r' hr
    unfold getHashFromReader at hr
    simp only at hr
    cases hl : hashLoop reader.pending reader.calls xxhash.New with
    | error e => simp [hl] at hr
    | ok res =>
      obtain ⟨h', r''⟩ := res
      simp only [hl, Except.ok.injEq, Prod.mk.injEq] at hr
      rw [← hr.2]
      exact hashLoop_ok_inv _ _ _ _ _ hl

/-- Witness of C8, amended: a reader that delivers "he" and then fails. -/
theorem getHashFromReader_read_error_witness :
    (∀ r ∈ [({ data := bytesOf "he", err := none } : ReadResult)], r.Continues) ∧
    getHashFromReader storedPath failingReader "/a/b.txt" =
      .error (Panic.hashing (GoError.other "unexpected EOF")) :=
  ⟨by intro r hr; rw [List.mem_singleton.mp hr]; exact ⟨by decide, fun msg => by simp⟩,
    (getHashFromReader_read_error storedPath "/a/b.txt").1
      [{ data := bytesOf "he", err := none }] [] [] "unexpected EOF" 0
      (by intro r hr; rw [List.mem_singleton.mp hr]; exact ⟨by decide, fun msg => by simp⟩)⟩

/-- C9, as stated, fails whatever `FileNode.Path` does: a fingerprint is a 64-bit value
and there are more paths than that, so some two different paths give the same content the
same fingerprint. -/
theorem distinct_paths_counterexample :
    ¬ ∃ Path : FileNode → String,
      ∀ (chunks : List (List UInt8)) (c : List UInt8) (p q : String),
        Delivers chunks c → p ≠ q →
        getHashFromReader Path (Reader.ofChunks chunks) p ≠
          getHashFromReader Path (Reader.ofChunks chunks) q := by
  rintro ⟨Path, hP⟩
  obtain ⟨p, q, hpq, heq⟩ := specFingerprint_collision Path []
  have hd : Delivers [] [] := ⟨fun x hx => by simp at hx, rfl⟩
  apply hP [] [] p q hd hpq
  rw [getHashFromReader_ofChunks Path [] p (fun x hx => by simp at hx),
    getHashFromReader_ofChunks Path [] q (fun x hx => by simp at hx)]
  simp only [List.flatten_nil]
  rw [heq]

/-- C9, amended: the fingerprints of `c` under `p` and under `q` differ exactly when the
digests of `decimal(H(c))` followed by the two absolute paths differ; paths with the same
absolute path give the same fingerprint. -/
theorem fingerprint_differs_iff (Path : FileNode → String) (chunks : List (List UInt8))
    (c : List UInt8) (p q : String) (hc : Delivers chunks c) :
    (getHashFromReader Path (Reader.ofChunks chunks) p ≠
        getHashFromReader Path (Reader.ofChunks chunks) q ↔
      xxhash.Sum64 (bytesOf (FormatUint (xxhash.Sum64 c)) ++ bytesOf (Path { path := p })) ≠
        xxhash.Sum64 (bytesOf (FormatUint (xxhash.Sum64 c)) ++ bytesOf (Path { path := q }))) ∧
    (Path { path := p } = Path { path := q } →
      getHashFromReader Path (Reader.ofChunks chunks) p =
        getHashFromReader Path (Reader.ofChunks chunks) q) := by
  have hne : ∀ x ∈ chunks, x ≠ [] := fun x hx => (hc.1 x hx).1
  rw [getHashFromReader_ofChunks Path chunks p hne, getHashFromReader_ofChunks Path chunks q hne,
    hc.2]
  refine ⟨?_, ?_⟩
  · simp only [ne_eq, Except.ok.injEq, Prod.mk.injEq, and_true]
    rfl
  · intro hpq
    simp only [specFingerprint, hpq]

/-- Witness of C9, amended: "hello" under `/a/b.txt` and under `/a/c.txt`. -/
theorem fingerprint_differs_iff_witness :
    Delivers [bytesOf "hello"] (bytesOf "hello") ∧
    getHashFromReader storedPath (Reader.ofChunks [bytesOf "hello"]) "/a/b.txt" ≠
      getHashFromReader storedPath (Reader.ofChunks [bytesOf "hello"]) "/a/c.txt" :=
  ⟨⟨by decide, by decide⟩,
    (fingerprint_differs_iff storedPath [bytesOf "hello"] (bytesOf "hello") "/a/b.txt"
      "/a/c.txt" ⟨by decide, by decide⟩).1.mpr (by decide)⟩

/-- C10: `NewFileInfo` classifies in the order symlink, directory, regular.  With the
symlink bit set in the stat mode the record is a symlink with the resolved target as
`Linkname` and `Size` 0, whatever `IsDir` reports; otherwise, for a directory, the record is
a directory with `Size` 0 and `Hash` 0; otherwise it is a regular file with the stat size
and the fingerprint of the bytes of the file under the logical path. -/
theorem NewFileInfo_classification (Path : FileNode → String) (fs : FileSystem)
    (realPath path : String) (info : os.FileInfo) :
    (info.Mode &&& os.ModeSymlink ≠ 0 →
      ∀ (target : String) (file : Reader) (hash : Nat) (file' : Reader),
        fs.Readlink realPath = .ok target → fs.Open realPath = .ok file →
        getHashFromReader Path file path = .ok (hash, file') →
        NewFileInfo Path fs realPath path info =
          .ok ({ Path := path, TypeFlag := tar.TypeSymlink, Linkname := target, Hash := hash,
                 Size := 0, Mode := info.Mode, Uid := -1, Gid := -1, IsDir := info.IsDir },
               some file')) ∧
    (info.Mode &&& os.ModeSymlink = 0 → info.IsDir = true →
      NewFileInfo Path fs realPath path info =
        .ok ({ Path := path, TypeFlag := tar.TypeDir, Linkname := "", Hash := 0,
               Size := 0, Mode := info.Mode, Uid := -1, Gid := -1, IsDir := info.IsDir },
             none)) ∧
    (info.Mode &&& os.ModeSymlink = 0 → info.IsDir = false →
      ∀ (file : Reader) (hash : Nat) (file' : Reader),
        fs.Open realPath = .ok file →
        getHashFromReader Path file path = .ok (hash, file') →
        NewFileInfo Path fs realPath path info =
          .ok ({ Path := path, TypeFlag := tar.TypeReg, Linkname := "", Hash := hash,
                 Size := info.Size, Mode := info.Mode, Uid := -1, Gid := -1,
                 IsDir := info.IsDir },
               some file')) := by
  refine ⟨?_, ?_, ?_⟩
  · intro hs target file hash file' hl ho hg
    rw [NewFileInfo_symlink Path fs realPath path info hs]
    simp only [hl, ho, hg]
  · intro hs hd
    exact NewFileInfo_dir Path fs realPath path info hs hd
  · intro hs hd file hash file' ho hg
    rw [NewFileInfo_regular Path fs realPath path info hs hd]
    simp only [ho, hg]

/-- Witness of C10: the symbolic link, a directory and the regular file of `exampleFS`. -/
theorem NewFileInfo_classification_witness :
    NewFileInfo storedPath exampleFS "/real/link" "/a/link" linkStat =
      .ok ({ Path := "/a/link", TypeFlag := tar.TypeSymlink, Linkname := "b.txt",
             Hash := specFingerprint storedPath (bytesOf "hello") "/a/link", Size := 0,
             Mode := linkStat.Mode, Uid := -1, Gid := -1, IsDir := linkStat.IsDir },
           some { pending := [], calls := 2 }) ∧
    NewFileInfo storedPath exampleFS "/real/a" "/a" dirStat =
      .ok ({ Path := "/a", TypeFlag := tar.TypeDir, Linkname := "", Hash := 0, Size := 0,
             Mode := dirStat.Mode, Uid := -1, Gid := -1, IsDir := dirStat.IsDir }, none) ∧
    NewFileInfo storedPath exampleFS "/real/b.txt" "/a/b.txt" regStat =
      .ok ({ Path := "/a/b.txt", TypeFlag := tar.TypeReg, Linkname := "",
             Hash := specFingerprint storedPath (bytesOf "hello") "/a/b.txt",
             Size := regStat.Size, Mode := regStat.Mode, Uid := -1, Gid := -1,
             IsDir := regStat.IsDir },
           some { pending := [], calls := 2 }) :=
  ⟨(NewFileInfo_classification storedPath exampleFS "/real/link" "/a/link" linkStat).1
      (by decide) "b.txt" helloReader _ _ (by decide) (by decide) (by decide),
    (NewFileInfo_classification storedPath exampleFS "/real/a" "/a" dirStat).2.1
      (by decide) (by decide),
    (NewFileInfo_classification storedPath exampleFS "/real/b.txt" "/a/b.txt" regStat).2.2
      (by decide) (by decide) helloReader _ _ (by decide) (by decide)⟩

/-- C11: the record of `NewFileInfoFromTarHeader` has `Path = p`, and `TypeFlag`,
`Linkname`, `Size`, `Mode`, `Uid`, `Gid` from the header; when the type flag is not the
directory marker its `Hash` is what `getHashFromReader` returns on the content reader and
`p`, and the record is returned whenever that call returns. -/
theorem NewFileInfoFromTarHeader_record (Path : FileNode → String) (reader : Reader)
    (header : tar.Header) (path : String) :
    (header.Typeflag ≠ tar.TypeDir → ∀ (hash : Nat) (r' : Reader),
      getHashFromReader Path reader path = .ok (hash, r') →
      NewFileInfoFromTarHeader Path reader header path =
        .ok ({ Path := path, TypeFlag := header.Typeflag, Linkname := header.Linkname,
               Hash := hash, Size := header.Size, Mode := header.FileInfo_Mode,
               Uid := header.Uid, Gid := header.Gid, IsDir := header.FileInfo_IsDir }, r')) ∧
    (header.Typeflag = tar.TypeDir →
      NewFileInfoFromTarHeader Path reader header path =
        .ok ({ Path := path, TypeFlag := header.Typeflag, Linkname := header.Linkname,
               Hash := 0, Size := header.Size, Mode := header.FileInfo_Mode,
               Uid := header.Uid, Gid := header.Gid, IsDir := header.FileInfo_IsDir },
             reader)) ∧
    (∀ (fi : FileInfo) (r : Reader),
      NewFileInfoFromTarHeader Path reader header path = .ok (fi, r) →
      fi.Path = path ∧ fi.TypeFlag = header.Typeflag ∧ fi.Linkname = header.Linkname ∧
        fi.Size = header.Size ∧ fi.Mode = header.FileInfo_Mode ∧ fi.Uid = header.Uid ∧
        fi.Gid = header.Gid ∧
        (header.Typeflag ≠ tar.TypeDir →
          getHashFromReader Path reader path = .ok (fi.Hash, r))) := by
  refine ⟨?_, ?_, ?_⟩
  · intro hd hash r' hg
    rw [NewFileInfoFromTarHeader_nondir Path reader header path hd]
    simp only [hg]
  · intro hd
    exact NewFileInfoFromTarHeader_dir Path reader header path hd
  · intro fi r h
    obtain ⟨f1, f2, f3, f4, f5, f6, f7, _⟩ :=
      NewFileInfoFromTarHeader_fields Path reader header path fi r h
    refine ⟨f1, f2, f3, f4, f5, f6, f7, ?_⟩
    intro hd
    rw [NewFileInfoFromTarHeader_nondir Path reader header path hd] at h
    cases hg : getHashFromReader Path reader path with
    | error p => simp [hg] at h
    | ok res =>
      simp only [hg] at h
      cases h
      rfl

/-- Witness of C11: the regular file `/a/b.txt` with content "hello". -/
theorem NewFileInfoFromTarHeader_record_witness :
    regHeader.Typeflag ≠ tar.TypeDir ∧
    NewFileInfoFromTarHeader storedPath helloReader regHeader "/a/b.txt" =
      .ok ({ Path := "/a/b.txt", TypeFlag := regHeader.Typeflag,
             Linkname := regHeader.Linkname,
             Hash := specFingerprint storedPath (bytesOf "hello") "/a/b.txt",
             Size := regHeader.Size, Mode := regHeader.FileInfo_Mode, Uid := regHeader.Uid,
             Gid := regHeader.Gid, IsDir := regHeader.FileInfo_IsDir },
           { pending := [], calls := 2 }) :=
  ⟨by decide,
    (NewFileInfoFromTarHeader_record storedPath helloReader regHeader "/a/b.txt").1
      (by decide) _ _ (by decide)⟩

/-- C12: every record `NewFileInfo` returns, symlink, directory or regular file, has
`Uid = -1` and `Gid = -1`. -/
theorem NewFileInfo_owner (Path : FileNode → String) (fs : FileSystem)
    (realPath path : String) (info : os.FileInfo) (fi : FileInfo) (file : Option Reader)
    (h : NewFileInfo Path fs realPath path info = .ok (fi, file)) :
    fi.Uid = -1 ∧ fi.Gid = -1 := by
  rcases NewFileInfo_inv Path fs realPath path info fi file h with
    ⟨_, target, hash, rfl⟩ | ⟨_, _, rfl⟩ | ⟨_, _, hash, rfl⟩ <;> exact ⟨rfl, rfl⟩

/-- Witness of C12: the regular file of `exampleFS`. -/
theorem NewFileInfo_owner_witness :
    NewFileInfo storedPath exampleFS "/real/b.txt" "/a/b.txt" regStat =
      .ok ({ helloRecord with Uid := -1, Gid := -1 }, some { pending := [], calls := 2 }) ∧
    ({ helloRecord with Uid := -1, Gid := -1 } : FileInfo).Uid = -1 ∧
    ({ helloRecord with Uid := -1, Gid := -1 } : FileInfo).Gid = -1 :=
  ⟨by decide,
    NewFileInfo_owner storedPath exampleFS "/real/b.txt" "/a/b.txt" regStat
      { helloRecord with Uid := -1, Gid := -1 } (some { pending := [], calls := 2 })
      (by decide)⟩

/-- C13, as stated, fails: the header of a hard link carries the link target, and the
record built from it has the hard-link type flag and a non-empty `Linkname`. -/
theorem hardlink_Linkname_counterexample :
    (NewFileInfoFromTarHeader storedPath emptyReader hardlinkHeader "/a/hard").map
        (fun res => (res.1.TypeFlag, res.1.Linkname)) = .ok (tar.TypeLink, "a/b.txt") ∧
    tar.TypeLink ≠ tar.TypeSymlink := by
  decide

/-- C13, amended: a record built from a tar header has the `Linkname` of the header,
whatever its `TypeFlag`; a record of `NewFileInfo` with a non-empty `Linkname` has the
symlink marker. -/
theorem record_Linkname (Path : FileNode → String) (reader : Reader)
    (header : tar.Header) (path : String) (fs : FileSystem) (realPath : String)
    (info : os.FileInfo) :
    (∀ fi r, NewFileInfoFromTarHeader Path reader header path = .ok (fi, r) →
      fi.Linkname = header.Linkname) ∧
    (∀ fi file, NewFileInfo Path fs realPath path info = .ok (fi, file) →
      fi.Linkname ≠ "" → fi.TypeFlag = tar.TypeSymlink) := by
  refine ⟨?_, ?_⟩
  · intro fi r h
    exact (NewFileInfoFromTarHeader_fields Path reader header path fi r h).2.2.1
  · intro fi file h hl
    rcases NewFileInfo_inv Path fs realPath path info fi file h with
      ⟨_, target, hash, rfl⟩ | ⟨_, _, rfl⟩ | ⟨_, _, hash, rfl⟩
    · rfl
    · exact absurd rfl hl
    · exact absurd rfl hl

/-- Witness of C13, amended: the hard-link header, and the symbolic link of `exampleFS`. -/
theorem record_Linkname_witness :
    ({ Path := "/a/hard", TypeFlag := tar.TypeLink, Linkname := "a/b.txt",
       Hash := specFingerprint storedPath [] "/a/hard", Size := 0, Mode := 0o644, Uid := 0,
       Gid := 0, IsDir := false } : FileInfo).Linkname = hardlinkHeader.Linkname ∧
    ({ Path := "/a/link", TypeFlag := tar.TypeSymlink, Linkname := "b.txt",
       Hash := specFingerprint storedPath (bytesOf "hello") "/a/link", Size := 0,
       Mode := linkStat.Mode, Uid := -1, Gid := -1, IsDir := false } : FileInfo).TypeFlag =
      tar.TypeSymlink :=
  ⟨(record_Linkname storedPath emptyReader hardlinkHeader "/a/hard" exampleFS "/real/link"
      linkStat).1 _ { pending := [], calls := 1 } (by decide),
    (record_Linkname storedPath emptyReader hardlinkHeader "/a/link" exampleFS "/real/link"
      linkStat).2 _ (some { pending := [], calls := 2 }) (by decide) (by decide)⟩

/-- C14, as stated, fails: a header with the regular-file type flag whose mode field
carries the Unix directory type bits (`040755`) gives a record with `IsDir` true and a
`TypeFlag` that is not the directory marker. -/
theorem IsDir_counterexample :
    (NewFileInfoFromTarHeader storedPath emptyReader dirModeHeader "/a/b").map
        (fun res => (res.1.TypeFlag, res.1.IsDir)) = .ok (tar.TypeReg, true) ∧
    tar.TypeReg ≠ tar.TypeDir := by
  decide

/-- C14, amended: in a record of either constructor the directory marker implies `IsDir`.
Conversely, a record built from a tar header has `IsDir` exactly when its `TypeFlag` is the
directory marker or the type bits of the header's mode field are the directory bits
`040000`; a record of `NewFileInfo` with `IsDir` has the directory or the symlink marker. -/
theorem record_IsDir (Path : FileNode → String) (reader : Reader)
    (header : tar.Header) (path : String) (fs : FileSystem) (realPath : String)
    (info : os.FileInfo) :
    (∀ fi r, NewFileInfoFromTarHeader Path reader header path = .ok (fi, r) →
      (fi.TypeFlag = tar.TypeDir → fi.IsDir = true) ∧
      (fi.IsDir = true ↔
        (fi.TypeFlag = tar.TypeDir ∨
          (tar.bits64 header.Mode % 2 ^ 32) &&& (0xFFFFFFFF ^^^ 0o7777) = tar.c_ISDIR))) ∧
    (∀ fi file, NewFileInfo Path fs realPath path info = .ok (fi, file) →
      (fi.TypeFlag = tar.TypeDir → fi.IsDir = true) ∧
      (fi.IsDir = true → fi.TypeFlag = tar.TypeDir ∨ fi.TypeFlag = tar.TypeSymlink)) := by
  refine ⟨?_, ?_⟩
  · intro fi r h
    obtain ⟨_, f2, _, _, _, _, _, f8⟩ :=
      NewFileInfoFromTarHeader_fields Path reader header path fi r h
    have key := Header_FileInfo_IsDir_iff header
    rw [f2, f8]
    exact ⟨fun ht => key.mpr (Or.inl ht), key⟩
  · intro fi file h
    rcases NewFileInfo_inv Path fs realPath path info fi file h with
      ⟨_, target, hash, rfl⟩ | ⟨_, hd, rfl⟩ | ⟨_, hd, hash, rfl⟩
    · exact ⟨fun ht => absurd ht (show tar.TypeSymlink ≠ tar.TypeDir by decide),
        fun _ => Or.inr rfl⟩
    · exact ⟨fun _ => hd, fun _ => Or.inl rfl⟩
    · refine ⟨fun ht => absurd ht (show tar.TypeReg ≠ tar.TypeDir by decide), ?_⟩
      intro hi
      simp only [hd] at hi
      exact absurd hi (by decide)

/-- Witness of C14, amended: the directory header and the directory stat entry. -/
theorem record_IsDir_witness :
    (dirRecord.TypeFlag = tar.TypeDir ∧ dirRecord.IsDir = true) ∧
    (dirStatRecord.TypeFlag = tar.TypeDir ∧ dirStatRecord.IsDir = true) :=
  ⟨⟨by decide,
      ((record_IsDir storedPath helloReader dirHeader "/a" exampleFS "/real/a" dirStat).1
        dirRecord helloReader (by decide)).1 (by decide)⟩,
    ⟨by decide,
      ((record_IsDir storedPath helloReader dirHeader "/a" exampleFS "/real/a" dirStat).2
        dirStatRecord none (by decide)).1 (by decide)⟩⟩

/-- C15, as stated, fails: the record of an empty regular file has `Size` 0, yet its
`TypeFlag` is not the directory marker and its `Hash` is not 0. -/
theorem directory_equivalence_counterexample :
    (NewFileInfoFromTarHeader storedPath emptyReader emptyFileHeader "/a/empty").map
        (fun res => (res.1.TypeFlag, res.1.Size, decide (res.1.Hash = 0))) =
      .ok (tar.TypeReg, 0, false) ∧
    tar.TypeReg ≠ tar.TypeDir := by
  decide

/-- C15, amended: in a record of either constructor the directory marker implies
`Hash = 0`, and in a record of `NewFileInfo` it also implies `Size = 0`. -/
theorem directory_implies_zero (Path : FileNode → String) (reader : Reader)
    (header : tar.Header) (path : String) (fs : FileSystem) (realPath : String)
    (info : os.FileInfo) :
    (∀ fi r, NewFileInfoFromTarHeader Path reader header path = .ok (fi, r) →
      fi.TypeFlag = tar.TypeDir → fi.Hash = 0) ∧
    (∀ fi file, NewFileInfo Path fs realPath path info = .ok (fi, file) →
      fi.TypeFlag = tar.TypeDir → fi.Hash = 0 ∧ fi.Size = 0) := by
  refine ⟨?_, ?_⟩
  · intro fi r h ht
    have hd : header.Typeflag = tar.TypeDir :=
      (NewFileInfoFromTarHeader_fields Path reader header path fi r h).2.1.symm.trans ht
    rw [NewFileInfoFromTarHeader_dir Path reader header path hd] at h
    cases h
    rfl
  · intro fi file h ht
    rcases NewFileInfo_inv Path fs realPath path info fi file h with
      ⟨_, target, hash, rfl⟩ | ⟨_, _, rfl⟩ | ⟨_, _, hash, rfl⟩
    · exact absurd ht (show tar.TypeSymlink ≠ tar.TypeDir by decide)
    · exact ⟨rfl, rfl⟩
    · exact absurd ht (show tar.TypeReg ≠ tar.TypeDir by decide)

/-- Witness of C15, amended: the directory header and the directory stat entry. -/
theorem directory_implies_zero_witness :
    dirRecord.Hash = 0 ∧ dirStatRecord.Hash = 0 ∧ dirStatRecord.Size = 0 :=
  ⟨(directory_implies_zero storedPath helloReader dirHeader "/a" exampleFS "/real/a"
      dirStat).1 dirRecord helloReader (by decide) (by decide),
    (directory_implies_zero storedPath helloReader dirHeader "/a" exampleFS "/real/a"
      dirStat).2 dirStatRecord none (by decide) (by decide)⟩

/-- C16: an entry that appears identically in two layers, whether a regular file or a
directory, is extracted both times and the two records compare as `Unmodified`.  The two
content readers are any readers that hold the content `c`: their data reads may have any
boundaries and may come with `io.EOF`, as the last bytes of a tar entry do. -/
theorem unchanged_entry_Unmodified (Path : FileNode → String) (header : tar.Header)
    (path : String) (reader1 reader2 : Reader) (c : List UInt8)
    (h1 : reader1.HoldsContent c) (h2 : reader2.HoldsContent c) :
    ∃ fi1 r1 fi2 r2,
      NewFileInfoFromTarHeader Path reader1 header path = .ok (fi1, r1) ∧
      NewFileInfoFromTarHeader Path reader2 header path = .ok (fi2, r2) ∧
      fi1.Compare fi2 = DiffType.Unmodified := by
  by_cases hd : header.Typeflag = tar.TypeDir
  · exact ⟨_, _, _, _, NewFileInfoFromTarHeader_dir Path _ header path hd,
      NewFileInfoFromTarHeader_dir Path _ header path hd,
      (Compare_eq_Unmodified _ _).mpr ⟨rfl, rfl, rfl, rfl, rfl⟩⟩
  · obtain ⟨r1, e1⟩ := NewFileInfoFromTarHeader_HoldsContent Path reader1 c header path hd h1
    obtain ⟨r2, e2⟩ := NewFileInfoFromTarHeader_HoldsContent Path reader2 c header path hd h2
    exact ⟨_, r1, _, r2, e1, e2, (Compare_eq_Unmodified _ _).mpr ⟨rfl, rfl, rfl, rfl, rfl⟩⟩

/-- Witness of C16: `/a/b.txt` with content "hello", mode `0644`, uid 0, gid 0, whose
bytes come with `io.EOF` in one read in one layer and in two reads in the other; and the
directory `/a/`. -/
theorem unchanged_entry_Unmodified_witness :
    (∃ fi1 r1 fi2 r2,
      NewFileInfoFromTarHeader storedPath tarHelloReader regHeader "/a/b.txt" =
        .ok (fi1, r1) ∧
      NewFileInfoFromTarHeader storedPath tarHelloSplitReader regHeader "/a/b.txt" =
        .ok (fi2, r2) ∧
      fi1.Compare fi2 = DiffType.Unmodified) ∧
    (∃ fi1 r1 fi2 r2,
      NewFileInfoFromTarHeader storedPath tarEmptyReader dirHeader "/a/" = .ok (fi1, r1) ∧
      NewFileInfoFromTarHeader storedPath tarEmptyReader dirHeader "/a/" = .ok (fi2, r2) ∧
      fi1.Compare fi2 = DiffType.Unmodified) :=
  ⟨unchanged_entry_Unmodified storedPath regHeader "/a/b.txt" tarHelloReader
      tarHelloSplitReader (bytesOf "hello")
      ⟨[{ data := bytesOf "hello", err := some GoError.EOF }], [], by decide, by decide,
        by decide, Or.inl rfl⟩
      ⟨[{ data := bytesOf "hel", err := none },
        { data := bytesOf "lo", err := some GoError.EOF }], [], by decide, by decide,
        by decide, Or.inl rfl⟩,
    unchanged_entry_Unmodified storedPath dirHeader "/a/" tarEmptyReader tarEmptyReader []
      ⟨[], [], by decide, by decide, by decide, Or.inl rfl⟩
      ⟨[], [], by decide, by decide, by decide, Or.inl rfl⟩⟩

/-- C17: for `/a/b.txt` with mode `0644`, uid 0, gid 0, the record extracted with content
"hello" and the record extracted with content "hello!" have different hashes and compare
as `Modified`, for any two readers that hold these contents (their data reads may come
with `io.EOF`, as the last bytes of a tar entry do).  `FileNode.Path` is taken to return
`/a/b.txt` for the path `/a/b.txt`. -/
theorem changed_content_Modified (Path : FileNode → String) (reader1 reader2 : Reader)
    (hP : Path { path := "/a/b.txt" } = "/a/b.txt")
    (h1 : reader1.HoldsContent (bytesOf "hello"))
    (h2 : reader2.HoldsContent (bytesOf "hello!")) :
    ∃ fi1 r1 fi2 r2,
      NewFileInfoFromTarHeader Path reader1 regHeader "/a/b.txt" = .ok (fi1, r1) ∧
      NewFileInfoFromTarHeader Path reader2 regHeader "/a/b.txt" = .ok (fi2, r2) ∧
      fi1.Hash ≠ fi2.Hash ∧
      fi1.Compare fi2 = DiffType.Modified := by
  have hd : regHeader.Typeflag ≠ tar.TypeDir := by decide
  have hne : specFingerprint Path (bytesOf "hello") "/a/b.txt" ≠
      specFingerprint Path (bytesOf "hello!") "/a/b.txt" := by
    unfold specFingerprint
    rw [hP]
    decide
  obtain ⟨r1, e1⟩ :=
    NewFileInfoFromTarHeader_HoldsContent Path reader1 _ regHeader "/a/b.txt" hd h1
  obtain ⟨r2, e2⟩ :=
    NewFileInfoFromTarHeader_HoldsContent Path reader2 _ regHeader "/a/b.txt" hd h2
  exact ⟨_, r1, _, r2, e1, e2, hne, Compare_of_Hash_ne _ _ hne⟩

/-- Witness of C17: both contents delivered in one read together with `io.EOF`, `Path`
returning the stored path. -/
theorem changed_content_Modified_witness :
    storedPath { path := "/a/b.txt" } = "/a/b.txt" ∧
    ∃ fi1 r1 fi2 r2,
      NewFileInfoFromTarHeader storedPath tarHelloReader regHeader "/a/b.txt" =
        .ok (fi1, r1) ∧
      NewFileInfoFromTarHeader storedPath tarHelloBangReader regHeader "/a/b.txt" =
        .ok (fi2, r2) ∧
      fi1.Hash ≠ fi2.Hash ∧
      fi1.Compare fi2 = DiffType.Modified :=
  ⟨rfl,
    changed_content_Modified storedPath tarHelloReader tarHelloBangReader rfl
      ⟨[{ data := bytesOf "hello", err := some GoError.EOF }], [], by decide, by decide,
        by decide, Or.inl rfl⟩
      ⟨[{ data := bytesOf "hello!", err := some GoError.EOF }], [], by decide, by decide,
        by decide, Or.inl rfl⟩⟩

/-- C18: two symlink headers that agree on mode, uid and gid but name different targets,
each with an empty content stream and the same logical path, give records with different
`Linkname`, equal `Hash`, and the verdict `Unmodified`; `Compare` does not depend on
`Path`, `Linkname`, `Size` or `IsDir`. -/
theorem retargeted_symlink_Unmodified (Path : FileNode → String) (h1 h2 : tar.Header)
    (path : String) (t1 : h1.Typeflag = tar.TypeSymlink) (t2 : h2.Typeflag = tar.TypeSymlink)
    (hm : h1.Mode = h2.Mode) (hu : h1.Uid = h2.Uid) (hg : h1.Gid = h2.Gid)
    (hl : h1.Linkname ≠ h2.Linkname) :
    (∃ fi1 fi2 r,
      NewFileInfoFromTarHeader Path emptyReader h1 path = .ok (fi1, r) ∧
      NewFileInfoFromTarHeader Path emptyReader h2 path = .ok (fi2, r) ∧
      fi1.Linkname ≠ fi2.Linkname ∧ fi1.Hash = fi2.Hash ∧
      fi1.Compare fi2 = DiffType.Unmodified) ∧
    (∀ (a b : FileInfo) (p l : String) (s : Int) (d : Bool),
      ({ a with Path := p, Linkname := l, Size := s, IsDir := d } : FileInfo).Compare b =
        a.Compare b ∧
      a.Compare { b with Path := p, Linkname := l, Size := s, IsDir := d } = a.Compare b) := by
  have d1 : h1.Typeflag ≠ tar.TypeDir := by rw [t1]; decide
  have d2 : h2.Typeflag ≠ tar.TypeDir := by rw [t2]; decide
  refine ⟨⟨_, _, _,
    NewFileInfoFromTarHeader_ofChunks Path [] h1 path d1 (fun x hx => by simp at hx),
    NewFileInfoFromTarHeader_ofChunks Path [] h2 path d2 (fun x hx => by simp at hx),
    hl, rfl, ?_⟩, ?_⟩
  · exact (Compare_eq_Unmodified _ _).mpr
      ⟨t1.trans t2.symm, rfl, Header_FileInfo_Mode_congr h1 h2 (t1.trans t2.symm) hm, hu, hg⟩
  · intro a b p l s d
    exact ⟨rfl, rfl⟩

/-- Witness of C18: the symbolic link `/a/link`, retargeted from `b.txt` to `c.txt`. -/
theorem retargeted_symlink_Unmodified_witness :
    linkHeaderA.Linkname ≠ linkHeaderB.Linkname ∧
    ∃ fi1 fi2 r,
      NewFileInfoFromTarHeader storedPath emptyReader linkHeaderA "/a/link" = .ok (fi1, r) ∧
      NewFileInfoFromTarHeader storedPath emptyReader linkHeaderB "/a/link" = .ok (fi2, r) ∧
      fi1.Linkname ≠ fi2.Linkname ∧ fi1.Hash = fi2.Hash ∧
      fi1.Compare fi2 = DiffType.Unmodified :=
  ⟨by decide,
    (retargeted_symlink_Unmodified storedPath linkHeaderA linkHeaderB "/a/link" rfl rfl rfl
      rfl rfl (by decide)).1⟩

/-- C19: when a read returns zero bytes and no error, after reads that each delivered at
least one byte, `getHashFromReader` stops there and returns, without failing, the
fingerprint of the bytes delivered before that read, leaving the rest of the reader
unread; so some reader holding a content `c` yields the fingerprint of a proper prefix
of `c`. -/
theorem empty_read_truncates (Path : FileNode → String) (p : String) :
    (∀ (pre post : List ReadResult) (calls : Nat), (∀ r ∈ pre, r.Continues) →
      getHashFromReader Path
          { pending := pre ++ { data := [], err := none } :: post, calls := calls } p =
        .ok (specFingerprint Path (pre.map (fun r => r.data)).flatten p,
          { pending := post, calls := calls + pre.length + 1 })) ∧
    (∃ (reader : Reader) (c pre : List UInt8) (r' : Reader),
      (reader.pending.map (fun r => r.data)).flatten = c ∧
      pre <+: c ∧ pre.length < c.length ∧
      getHashFromReader Path reader p = .ok (specFingerprint Path pre p, r')) := by
  have main : ∀ (pre post : List ReadResult) (calls : Nat), (∀ r ∈ pre, r.Continues) →
      getHashFromReader Path
          { pending := pre ++ { data := [], err := none } :: post, calls := calls } p =
        .ok (specFingerprint Path (pre.map (fun r => r.data)).flatten p,
          { pending := post, calls := calls + pre.length + 1 }) := by
    intro pre post calls hpre
    unfold getHashFromReader
    simp only
    rw [hashLoop_continues pre calls xxhash.New _ hpre,
      hashLoop_stop none post _ _ (fun msg => by simp),
      foldl_Write_data _ _ xxhash.New_mem_lt]
    simp only
    rw [secondStage_eq]
    rfl
  refine ⟨main, truncatingReader, bytesOf "hello", bytesOf "he",
    { pending := [{ data := bytesOf "llo", err := none },
                  { data := [], err := some GoError.EOF }], calls := 2 },
    by decide, by decide, by decide, ?_⟩
  exact main [{ data := bytesOf "he", err := none }]
    [{ data := bytesOf "llo", err := none }, { data := [], err := some GoError.EOF }] 0
    (by intro r hr; rw [List.mem_singleton.mp hr]; exact ⟨by decide, fun msg => by simp⟩)

/-- Witness of C19: the reader over "hello" that stalls after "he". -/
theorem empty_read_truncates_witness :
    (∀ r ∈ [({ data := bytesOf "he", err := none } : ReadResult)], r.Continues) ∧
    getHashFromReader storedPath truncatingReader "/a/b.txt" =
      .ok (specFingerprint storedPath
          ([({ data := bytesOf "he", err := none } : ReadResult)].map
            (fun r => r.data)).flatten "/a/b.txt",
        { pending := [{ data := bytesOf "llo", err := none },
                      { data := [], err := some GoError.EOF }],
          calls := 0 + [({ data := bytesOf "he", err := none } : ReadResult)].length + 1 }) :=
  ⟨by intro r hr; rw [List.mem_singleton.mp hr]; exact ⟨by decide, fun msg => by simp⟩,
    (empty_read_truncates storedPath "/a/b.txt").1
      [{ data := bytesOf "he", err := none }]
      [{ data := bytesOf "llo", err := none }, { data := [], err := some GoError.EOF }] 0
      (by intro r hr; rw [List.mem_singleton.mp hr]; exact ⟨by decide, fun msg => by simp⟩)⟩

/-- C20: the verdict `Unmodified` is an equivalence relation on records: `a.Compare(a)` is
`Unmodified`; if `a.Compare(b)` is `Unmodified` so is `b.Compare(a)`; and if `a.Compare(b)`
and `b.Compare(c)` are `Unmodified` so is `a.Compare(c)`. -/
theorem Unmodified_equivalence :
    (∀ a : FileInfo, a.Compare a = DiffType.Unmodified) ∧
    (∀ a b : FileInfo, a.Compare b = DiffType.Unmodified →
      b.Compare a = DiffType.Unmodified) ∧
    (∀ a b c : FileInfo, a.Compare b = DiffType.Unmodified →
      b.Compare c = DiffType.Unmodified → a.Compare c = DiffType.Unmodified) := by
  refine ⟨?_, ?_, ?_⟩
  · intro a
    exact (Compare_eq_Unmodified a a).mpr ⟨rfl, rfl, rfl, rfl, rfl⟩
  · intro a b hab
    obtain ⟨e1, e2, e3, e4, e5⟩ := (Compare_eq_Unmodified a b).mp hab
    exact (Compare_eq_Unmodified b a).mpr ⟨e1.symm, e2.symm, e3.symm, e4.symm, e5.symm⟩
  · intro a b c hab hbc
    obtain ⟨e1, e2, e3, e4, e5⟩ := (Compare_eq_Unmodified a b).mp hab
    obtain ⟨f1, f2, f3, f4, f5⟩ := (Compare_eq_Unmodified b c).mp hbc
    exact (Compare_eq_Unmodified a c).mpr
      ⟨e1.trans f1, e2.trans f2, e3.trans f3, e4.trans f4, e5.trans f5⟩

/-- Witness of C20: three observations of `/a/b.txt` that differ in `Size` and `Linkname`
only. -/
theorem Unmodified_equivalence_witness :
    helloRecord.Compare { helloRecord with Size := 6 } = DiffType.Unmodified ∧
    ({ helloRecord with Size := 6 } : FileInfo).Compare { helloRecord with Linkname := "x" } =
      DiffType.Unmodified ∧
    helloRecord.Compare { helloRecord with Linkname := "x" } = DiffType.Unmodified :=
  ⟨by decide, by decide,
    Unmodified_equivalence.2.2 helloRecord { helloRecord with Size := 6 }
      { helloRecord with Linkname := "x" } (by decide) (by decide)⟩


end Dive
